import Mathlib

/-!
Verification model of `utils/generate_grammar_tables.py`, the SPIR-V
grammar-to-table generator.  Python dictionaries parsed from the JSON grammar
are modelled as structures whose optional fields are `Option`s (a `dict.get`
that may miss), Python exceptions (KeyError, IndexError, AssertionError,
TypeError) are modelled as `Option.none` results, and Python's builtin
`sorted` (a stable sort over comparable keys) is modelled by a stable
insertion sort over comparators that mirror Python's value comparison
(strings compare pointwise by code point, tuples lexicographically).
-/

/-! ## Comparators

Python compares sort keys with a total order.  `Ordering`-valued comparators
with the three `LawfulCmp` laws model that; everything is executable so that
concrete runs reduce inside the kernel. -/

def leOfCmp (cmp : α → α → Ordering) (a b : α) : Bool :=
  match cmp a b with
  | Ordering.gt => false
  | _ => true

structure LawfulCmp (cmp : α → α → Ordering) : Prop where
  eq_iff : ∀ a b, cmp a b = Ordering.eq ↔ a = b
  opp : ∀ a b, cmp b a = (cmp a b).swap
  lt_trans : ∀ a b c, cmp a b = Ordering.lt → cmp b c = Ordering.lt → cmp a c = Ordering.lt

theorem LawfulCmp.refl {cmp : α → α → Ordering} (h : LawfulCmp cmp) (a : α) :
    cmp a a = Ordering.eq := (h.eq_iff a a).mpr rfl

theorem LawfulCmp.le_refl {cmp : α → α → Ordering} (h : LawfulCmp cmp) (a : α) :
    leOfCmp cmp a a = true := by
  simp [leOfCmp, h.refl a]

theorem LawfulCmp.le_total {cmp : α → α → Ordering} (h : LawfulCmp cmp) (a b : α) :
    leOfCmp cmp a b = true ∨ leOfCmp cmp b a = true := by
  have hop := h.opp a b
  rcases hc : cmp a b with _ | _ | _
  · exact Or.inl (by simp [leOfCmp, hc])
  · exact Or.inl (by simp [leOfCmp, hc])
  · rw [hc] at hop
    exact Or.inr (by simp [leOfCmp, hop, Ordering.swap])

theorem LawfulCmp.ne_of_not_le {cmp : α → α → Ordering} (h : LawfulCmp cmp) {a b : α}
    (hab : leOfCmp cmp a b = false) : b ≠ a := by
  intro hba
  rw [hba] at hab
  simp [h.le_refl] at hab

theorem LawfulCmp.le_trans {cmp : α → α → Ordering} (h : LawfulCmp cmp) (a b c : α)
    (hab : leOfCmp cmp a b = true) (hbc : leOfCmp cmp b c = true) :
    leOfCmp cmp a c = true := by
  rcases h1 : cmp a b with _ | _ | _
  · rcases h2 : cmp b c with _ | _ | _
    · simp [leOfCmp, h.lt_trans a b c h1 h2]
    · have : b = c := (h.eq_iff b c).mp h2
      subst this
      simp [leOfCmp, h1]
    · rw [leOfCmp, h2] at hbc
      cases hbc
  · have : a = b := (h.eq_iff a b).mp h1
    subst this
    exact hbc
  · rw [leOfCmp, h1] at hab
    cases hab

/-! Concrete comparators: characters (by code point), integers, lexicographic
pairs, and lists (Python compares strings and tuples this way). -/

def cmpChar (a b : Char) : Ordering :=
  if a.toNat < b.toNat then Ordering.lt
  else if b.toNat < a.toNat then Ordering.gt
  else Ordering.eq

def cmpInt (a b : Int) : Ordering :=
  if a < b then Ordering.lt else if b < a then Ordering.gt else Ordering.eq

def cmpList (cmp : α → α → Ordering) : List α → List α → Ordering
  | [], [] => Ordering.eq
  | [], _ :: _ => Ordering.lt
  | _ :: _, [] => Ordering.gt
  | a :: as, b :: bs =>
    match cmp a b with
    | Ordering.eq => cmpList cmp as bs
    | o => o

def cmpStr (a b : String) : Ordering := cmpList cmpChar a.data b.data

def cmpLex (c1 : α → α → Ordering) (c2 : β → β → Ordering) (a b : α × β) : Ordering :=
  match c1 a.1 b.1 with
  | Ordering.eq => c2 a.2 b.2
  | o => o

theorem lawfulCmpChar : LawfulCmp cmpChar := by
  refine ⟨?_, ?_, ?_⟩
  · intro a b
    constructor
    · intro h
      have : a.toNat = b.toNat := by
        by_cases h1 : a.toNat < b.toNat
        · rw [cmpChar, if_pos h1] at h; cases h
        · by_cases h2 : b.toNat < a.toNat
          · rw [cmpChar, if_neg h1, if_pos h2] at h; cases h
          · omega
      exact Char.ext (UInt32.eq_of_val_eq (Fin.ext this))
    · intro h
      subst h
      simp [cmpChar]
  · intro a b
    unfold cmpChar
    split_ifs <;> first | rfl | omega
  · intro a b c h1 h2
    have ha : a.toNat < b.toNat := by
      by_contra hn
      rw [cmpChar, if_neg hn] at h1
      split at h1 <;> simp_all
    have hb : b.toNat < c.toNat := by
      by_contra hn
      rw [cmpChar, if_neg hn] at h2
      split at h2 <;> simp_all
    rw [cmpChar, if_pos (by omega)]

theorem lawfulCmpInt : LawfulCmp cmpInt := by
  refine ⟨?_, ?_, ?_⟩
  · intro a b
    constructor
    · intro h
      by_cases h1 : a < b
      · rw [cmpInt, if_pos h1] at h; cases h
      · by_cases h2 : b < a
        · rw [cmpInt, if_neg h1, if_pos h2] at h; cases h
        · omega
    · intro h
      subst h
      simp [cmpInt]
  · intro a b
    unfold cmpInt
    split_ifs <;> first | rfl | omega
  · intro a b c h1 h2
    have ha : a < b := by
      by_contra hn
      rw [cmpInt, if_neg hn] at h1
      split at h1 <;> simp_all
    have hb : b < c := by
      by_contra hn
      rw [cmpInt, if_neg hn] at h2
      split at h2 <;> simp_all
    rw [cmpInt, if_pos (by omega)]

theorem lawfulCmpList {cmp : α → α → Ordering} (h : LawfulCmp cmp) :
    LawfulCmp (cmpList cmp) := by
  refine ⟨?_, ?_, ?_⟩
  · intro a
    induction a with
    | nil => intro b; cases b <;> simp [cmpList]
    | cons x xs ih =>
      intro b
      cases b with
      | nil => simp [cmpList]
      | cons y ys =>
        constructor
        · intro hc
          rcases hxy : cmp x y with _ | _ | _ <;> rw [cmpList, hxy] at hc
          · cases hc
          · have hx : x = y := (h.eq_iff x y).mp hxy
            have hs : xs = ys := (ih ys).mp hc
            rw [hx, hs]
          · cases hc
        · intro hc
          injection hc with hx hs
          rw [cmpList, (h.eq_iff x y).mpr hx]
          exact (ih ys).mpr hs
  · intro a
    induction a with
    | nil => intro b; cases b <;> simp [cmpList, Ordering.swap]
    | cons x xs ih =>
      intro b
      cases b with
      | nil => simp [cmpList, Ordering.swap]
      | cons y ys =>
        have hop := h.opp x y
        rcases hxy : cmp x y with _ | _ | _ <;> rw [hxy] at hop
        · have hop2 : cmp y x = Ordering.gt := hop
          simp only [cmpList, hxy, hop2]
          rfl
        · have hop2 : cmp y x = Ordering.eq := hop
          simp only [cmpList, hxy, hop2]
          exact ih ys
        · have hop2 : cmp y x = Ordering.lt := hop
          simp only [cmpList, hxy, hop2]
          rfl
  · intro a
    induction a with
    | nil =>
      intro b c h1 h2
      cases b with
      | nil => exact h2
      | cons y ys =>
        cases c with
        | nil => cases h2
        | cons z zs => rfl
    | cons x xs ih =>
      intro b c h1 h2
      cases b with
      | nil => cases h1
      | cons y ys =>
        cases c with
        | nil => cases h2
        | cons z zs =>
          rcases hxy : cmp x y with _ | _ | _ <;> rw [cmpList, hxy] at h1
          · rcases hyz : cmp y z with _ | _ | _ <;> rw [cmpList, hyz] at h2
            · rw [cmpList, h.lt_trans x y z hxy hyz]
            · have : y = z := (h.eq_iff y z).mp hyz
              subst this
              rw [cmpList, hxy]
            · cases h2
          · have : x = y := (h.eq_iff x y).mp hxy
            subst this
            rcases hyz : cmp x z with _ | _ | _ <;> rw [cmpList, hyz] at h2
            · rw [cmpList, hyz]
            · have : x = z := (h.eq_iff x z).mp hyz
              subst this
              rw [cmpList, h.refl x]
              exact ih ys zs h1 h2
            · cases h2
          · cases h1

theorem lawfulCmpStr : LawfulCmp cmpStr := by
  have hl := lawfulCmpList lawfulCmpChar
  refine ⟨?_, ?_, ?_⟩
  · intro a b
    rw [cmpStr, hl.eq_iff]
    constructor
    · intro h
      cases a
      cases b
      simp_all
    · intro h
      rw [h]
  · intro a b
    exact hl.opp a.data b.data
  · intro a b c h1 h2
    exact hl.lt_trans a.data b.data c.data h1 h2

theorem lawfulCmpLex {c1 : α → α → Ordering} {c2 : β → β → Ordering}
    (h1 : LawfulCmp c1) (h2 : LawfulCmp c2) : LawfulCmp (cmpLex c1 c2) := by
  refine ⟨?_, ?_, ?_⟩
  · intro a b
    constructor
    · intro h
      rcases hx : c1 a.1 b.1 with _ | _ | _ <;> rw [cmpLex, hx] at h
      · cases h
      · exact Prod.ext ((h1.eq_iff _ _).mp hx) ((h2.eq_iff _ _).mp h)
      · cases h
    · intro h
      subst h
      rw [cmpLex, h1.refl, h2.refl]
  · intro a b
    have hop := h1.opp a.1 b.1
    rcases hx : c1 a.1 b.1 with _ | _ | _ <;> rw [hx] at hop
    · have hop2 : c1 b.1 a.1 = Ordering.gt := hop
      simp only [cmpLex, hx, hop2]
      rfl
    · have hop2 : c1 b.1 a.1 = Ordering.eq := hop
      simp only [cmpLex, hx, hop2]
      exact h2.opp a.2 b.2
    · have hop2 : c1 b.1 a.1 = Ordering.lt := hop
      simp only [cmpLex, hx, hop2]
      rfl
  · intro a b c ha hb
    rcases hx : c1 a.1 b.1 with _ | _ | _ <;> rw [cmpLex, hx] at ha
    · rcases hy : c1 b.1 c.1 with _ | _ | _ <;> rw [cmpLex, hy] at hb
      · rw [cmpLex, h1.lt_trans _ _ _ hx hy]
      · have e : b.1 = c.1 := (h1.eq_iff _ _).mp hy
        rw [cmpLex, ← e, hx]
      · cases hb
    · have e : a.1 = b.1 := (h1.eq_iff _ _).mp hx
      rcases hy : c1 b.1 c.1 with _ | _ | _ <;> rw [cmpLex, hy] at hb
      · rw [cmpLex, e, hy]
      · have e2 : b.1 = c.1 := (h1.eq_iff _ _).mp hy
        have he : c1 a.1 c.1 = Ordering.eq := by
          rw [e, e2, h1.refl]
        rw [cmpLex, he]
        exact h2.lt_trans _ _ _ ha hb
      · cases hb
    · cases ha

/-! ## A stable insertion sort

`pySorted key cmp l` models Python's stable `sorted(l, key=key)` under the
comparator `cmp` on keys. -/

def pyOrderedInsert (le : α → α → Bool) (x : α) : List α → List α
  | [] => [x]
  | b :: t => if le x b then x :: b :: t else b :: pyOrderedInsert le x t

def pyInsSort (le : α → α → Bool) : List α → List α
  | [] => []
  | a :: l => pyOrderedInsert le a (pyInsSort le l)

def pySorted (key : α → κ) (cmp : κ → κ → Ordering) (l : List α) : List α :=
  pyInsSort (fun a b => leOfCmp cmp (key a) (key b)) l

theorem pyOrderedInsert_perm (le : α → α → Bool) (x : α) (l : List α) :
    (pyOrderedInsert le x l).Perm (x :: l) := by
  induction l with
  | nil => simp [pyOrderedInsert]
  | cons b t ih =>
    rw [pyOrderedInsert]
    by_cases h : le x b
    · simp [h]
    · simp only [h, if_false]
      exact (ih.cons b).trans (List.Perm.swap x b t)

theorem pyInsSort_perm (le : α → α → Bool) (l : List α) : (pyInsSort le l).Perm l := by
  induction l with
  | nil => simp [pyInsSort]
  | cons a l ih =>
    rw [pyInsSort]
    exact (pyOrderedInsert_perm le a (pyInsSort le l)).trans (ih.cons a)

theorem pyOrderedInsert_pairwise (le : α → α → Bool)
    (htot : ∀ a b, le a b = true ∨ le b a = true)
    (htr : ∀ a b c, le a b = true → le b c = true → le a c = true)
    (x : α) (l : List α) (hl : l.Pairwise (fun a b => le a b = true)) :
    (pyOrderedInsert le x l).Pairwise (fun a b => le a b = true) := by
  induction l with
  | nil => simp [pyOrderedInsert]
  | cons b t ih =>
    rw [pyOrderedInsert]
    rcases List.pairwise_cons.mp hl with ⟨hbt, ht⟩
    by_cases h : le x b = true
    · rw [if_pos h]
      refine List.pairwise_cons.mpr ⟨?_, hl⟩
      intro y hy
      rcases List.mem_cons.mp hy with hy1 | hy2
      · rw [hy1]
        exact h
      · exact htr x b y h (hbt _ hy2)
    · rw [if_neg h]
      refine List.pairwise_cons.mpr ⟨?_, ih ht⟩
      intro y hy
      rcases List.mem_cons.mp ((pyOrderedInsert_perm le x t).mem_iff.mp hy) with hy1 | hy2
      · rw [hy1]
        rcases htot x b with hc | hc
        · exact absurd hc h
        · exact hc
      · exact hbt y hy2

theorem pySorted_perm (key : α → κ) (cmp : κ → κ → Ordering) (l : List α) :
    (pySorted key cmp l).Perm l := pyInsSort_perm _ l

theorem pySorted_pairwise (key : α → κ) {cmp : κ → κ → Ordering} (h : LawfulCmp cmp)
    (l : List α) :
    (pySorted key cmp l).Pairwise (fun a b => leOfCmp cmp (key a) (key b) = true) := by
  rw [pySorted]
  induction l with
  | nil => simp [pyInsSort]
  | cons a l ih =>
    rw [pyInsSort]
    exact pyOrderedInsert_pairwise _
      (fun a b => h.le_total (key a) (key b))
      (fun a b c => h.le_trans (key a) (key b) (key c)) a _ ih

theorem pyOrderedInsert_filter_key [DecidableEq κ] (key : α → κ)
    {cmp : κ → κ → Ordering} (h : LawfulCmp cmp) (x : α) (l : List α) (k : κ) :
    (pyOrderedInsert (fun a b => leOfCmp cmp (key a) (key b)) x l).filter
        (fun a => key a = k) =
      if key x = k then x :: l.filter (fun a => key a = k)
      else l.filter (fun a => key a = k) := by
  induction l with
  | nil =>
    rw [pyOrderedInsert]
    by_cases hk : key x = k <;> simp [List.filter, hk]
  | cons b t ih =>
    rw [pyOrderedInsert]
    by_cases hle : leOfCmp cmp (key x) (key b) = true
    · rw [if_pos hle]
      by_cases hk : key x = k <;> simp [List.filter_cons, hk]
    · rw [if_neg hle, List.filter_cons, ih]
      have hle2 : leOfCmp cmp (key x) (key b) = false := by
        revert hle
        cases leOfCmp cmp (key x) (key b) <;> simp
      by_cases hbk : key b = k
      · have hxk : ¬ key x = k := by
          intro hxe
          have hne : key b ≠ key x := h.ne_of_not_le hle2
          rw [hxe, hbk] at hne
          exact hne rfl
        simp [List.filter_cons, hbk, hxk]
      · simp [List.filter_cons, hbk]

theorem pySorted_filter_key [DecidableEq κ] (key : α → κ)
    {cmp : κ → κ → Ordering} (h : LawfulCmp cmp) (l : List α) (k : κ) :
    (pySorted key cmp l).filter (fun a => key a = k) = l.filter (fun a => key a = k) := by
  rw [pySorted]
  induction l with
  | nil => rfl
  | cons a l ih =>
    rw [pyInsSort, pyOrderedInsert_filter_key key h, List.filter_cons]
    by_cases hk : key a = k <;> simp [hk, ih]

/-! ## The grammar data model

JSON grammar objects as `generate_grammar_tables.py` reads them.  A field
read with `dict.get(...)` that may be absent is an `Option`; a field the
script always subscripts directly (`inst['opcode']`, `operand['kind']`) is
modelled as always present.  An absent `extensions`/`capabilities` list and
a present empty one are indistinguishable to the script (it reads them with
`.get(key, [])` or a truthiness test), so both are modelled as `[]`. -/

inductive JVal
  | num (n : Int)
  | str (s : String)
deriving DecidableEq

structure OperandSpec where
  kind : String
  quantifier : String
deriving DecidableEq

structure Enumerant where
  enumerant : Option String
  value : Option JVal
  capabilities : List String
  extensions : List String
  parameters : List String
  version : Option String
  lastVersion : Option String
deriving DecidableEq

structure OperandKind where
  kind : Option String
  category : Option String
  enumerants : List Enumerant
deriving DecidableEq

structure Inst where
  opname : Option String
  opcode : Int
  capabilities : List String
  extensions : List String
  operands : List OperandSpec
  version : Option String
  lastVersion : Option String
deriving DecidableEq

structure Grammar where
  instructions : List Inst
  operand_kinds : List OperandKind
deriving DecidableEq

/-! ## Small helpers -/

/-- First-occurrence deduplication, as Python's `if x not in acc: acc.append(x)`
idiom and dict-key insertion order produce. -/
def dedupFGo [DecidableEq α] (seen : List α) : List α → List α
  | [] => []
  | a :: l => if a ∈ seen then dedupFGo seen l else a :: dedupFGo (a :: seen) l

def dedupF [DecidableEq α] (l : List α) : List α := dedupFGo [] l

/-- `version.replace('.', ',')` on a version string (single-character
replacement is a pointwise character map). -/
def dotToComma (s : String) : String :=
  ⟨s.data.map (fun c => if c = '.' then ',' else c)⟩

/-- Python's `str(...)` of an optional JSON value (`str(None)` is `"None"`). -/
def pyStrOpt : Option JVal → String
  | none => "None"
  | some (JVal.num n) => toString n
  | some (JVal.str s) => s

/-- `'{}'.format(value)` for a JSON number or string value. -/
def jvalRender : JVal → String
  | JVal.num n => toString n
  | JVal.str s => s

/-! ## Version conversion (`convert_min_required_version`,
`convert_max_required_version`) -/

def convert_min_required_version : Option String → String
  | none => "SPV_SPIRV_VERSION_WORD(1, 0)"
  | some v =>
    if v = "None" then "0xffffffffu"
    else ("SPV_SPIRV_VERSION_WORD(") ++ dotToComma v ++ (")")

def convert_max_required_version : Option String → String
  | none => "0xffffffffu"
  | some v => ("SPV_SPIRV_VERSION_WORD(") ++ dotToComma v ++ (")")

/-! ## Capability and extension arrays (`compose_capability_list`,
`get_capability_array_name`, `generate_capability_arrays`, and the extension
counterparts) -/

def compose_capability_list (caps : List String) : String :=
  ("\x7b") ++ String.intercalate (", ") (caps.map (fun c => ("SpvCapability") ++ c)) ++ ("\x7d")

def get_capability_array_name (caps : List String) : String :=
  if caps.isEmpty then "nullptr"
  else ("pygen_variable_caps_") ++ String.join caps

/-- The deduplicated, lexicographically sorted list of non-empty tuples:
`sorted(set([tuple(c) for c in caps if c]))`. -/
def capArrayTuples (caps : List (List String)) : List (List String) :=
  pySorted (fun t => t) (cmpList cmpStr) (dedupF (caps.filter (fun c => !c.isEmpty)))

def generate_capability_arrays (caps : List (List String)) : String :=
  String.intercalate ("\n") ((capArrayTuples caps).map (fun c =>
    ("static const SpvCapability ") ++ get_capability_array_name c ++ ("[] = ")
      ++ compose_capability_list c ++ (";")))

def compose_extension_list (exts : List String) : String :=
  ("\x7b") ++ String.intercalate (", ") (exts.map (fun e => ("spvtools::Extension::k") ++ e)) ++ ("\x7d")

def get_extension_array_name (extensions : List String) : String :=
  if extensions.isEmpty then "nullptr"
  else ("pygen_variable_exts_") ++ String.join extensions

def extArrayTuples (extensions : List (List String)) : List (List String) :=
  pySorted (fun t => t) (cmpList cmpStr) (dedupF (extensions.filter (fun e => !e.isEmpty)))

def generate_extension_arrays (extensions : List (List String)) : String :=
  String.intercalate ("\n") ((extArrayTuples extensions).map (fun e =>
    ("static const spvtools::Extension ") ++ get_extension_array_name e ++ ("[] = ")
      ++ compose_extension_list e ++ (";")))

/-! ## Operand kind conversion (`convert_operand_kind`) -/

/-- `re.sub(r'([a-z])([A-Z])', r'\1_\2', kind)`: the matches of that pattern
are exactly the adjacent lowercase-uppercase pairs, and they cannot overlap,
so the substitution inserts an underscore between every such pair. -/
def snakeChars : List Char → List Char
  | [] => []
  | [c] => [c]
  | a :: b :: rest =>
    if a.isLower && b.isUpper then a :: '_' :: snakeChars (b :: rest)
    else a :: snakeChars (b :: rest)

/-- The pattern substitution followed by `.upper()`. -/
def snakeUpper (s : String) : String := ⟨(snakeChars s.data).map Char.toUpper⟩

/-- The first rename chain of `convert_operand_kind` (one `if/elif` chain). -/
def renameOperandKind (kind : String) : String :=
  if kind = "IdResultType" then "TypeId"
  else if kind = "IdResult" then "ResultId"
  else if kind = "IdMemorySemantics" ∨ kind = "MemorySemantics" then "MemorySemanticsId"
  else if kind = "IdScope" ∨ kind = "Scope" then "ScopeId"
  else if kind = "IdRef" then "Id"
  else if kind = "ImageOperands" then "Image"
  else if kind = "Dim" then "Dimensionality"
  else if kind = "ImageFormat" then "SamplerImageFormat"
  else if kind = "KernelEnqueueFlags" then "KernelEnqFlags"
  else if kind = "LiteralExtInstInteger" then "ExtensionInstructionNumber"
  else if kind = "LiteralSpecConstantOpInteger" then "SpecConstantOpNumber"
  else if kind = "LiteralContextDependentNumber" then "TypedLiteralNumber"
  else if kind = "PairLiteralIntegerIdRef" then "LiteralIntegerId"
  else if kind = "PairIdRefLiteralInteger" then "IdLiteralInteger"
  else if kind = "PairIdRefIdRef" then "Id"
  else kind

/-- The second rename chain (the FP rounding / fast-math `if/elif`). -/
def renameFpKind (kind : String) : String :=
  if kind = "FPRoundingMode" then "FpRoundingMode"
  else if kind = "FPFastMathMode" then "FpFastMathMode"
  else kind

/-- `convert_operand_kind((kind, quantifier))`. -/
def convert_operand_kind (kind quantifier : String) : String :=
  let k1 := renameFpKind (renameOperandKind kind)
  let k2 :=
    if quantifier = "?" then ("Optional") ++ k1
    else if quantifier = "*" then ("Variable") ++ k1
    else k1
  ("SPV_OPERAND_TYPE_") ++ snakeUpper k2

example : convert_operand_kind ("IdRef") ("*") = ("SPV_OPERAND_TYPE_VARIABLE_ID") := rfl
example : convert_operand_kind ("ImageOperands") ("") = ("SPV_OPERAND_TYPE_IMAGE") := rfl
example : convert_operand_kind ("ImageOperands") ("?") = ("SPV_OPERAND_TYPE_OPTIONAL_IMAGE") := rfl
example : convert_operand_kind ("MemoryAccess") ("") = ("SPV_OPERAND_TYPE_MEMORY_ACCESS") := rfl
example : convert_operand_kind ("LiteralExtInstInteger") ("")
    = ("SPV_OPERAND_TYPE_EXTENSION_INSTRUCTION_NUMBER") := rfl

/-! ## Instruction initializers (`InstInitializer`, `ExtInstInitializer`) -/

/-- `assert opname.startswith('Op')` followed by `opname[2:]`. -/
def stripOpName (s : String) : Option String :=
  match s.data with
  | 'O' :: 'p' :: rest => some (⟨rest⟩)
  | _ => none

/-- `InstInitializer.fix_syntax`: for `ExtInst` (only), drop a trailing
`SPV_OPERAND_TYPE_VARIABLE_ID`.  `self.operands[-1]` on an empty list raises
IndexError, modelled as `none`. -/
def extInstFixup (opname : String) (operands : List String) : Option (List String) :=
  if opname = "ExtInst" then
    match operands.getLast? with
    | none => none
    | some lastOp =>
      if lastOp = "SPV_OPERAND_TYPE_VARIABLE_ID" then some operands.dropLast
      else some operands
  else some operands

structure InstInit where
  opname : String
  num_caps : Nat
  caps_mask : String
  num_exts : Nat
  exts : String
  operands : List String
  ref_type_id : Bool
  def_result_id : Bool
  version : String
  lastVersion : String
deriving DecidableEq

/-- `InstInitializer.__init__` (with `fix_syntax` applied, as the constructor
does). -/
def mkInstInitializer (opname : String) (caps exts : List String)
    (operands : List OperandSpec) (version lastVersion : Option String) :
    Option InstInit :=
  match stripOpName opname with
  | none => none
  | some stripped =>
  match extInstFixup stripped
      (operands.map (fun o => convert_operand_kind o.kind o.quantifier)) with
  | none => none
  | some fixedOps =>
  some
    { opname := stripped
      num_caps := caps.length
      caps_mask := get_capability_array_name caps
      num_exts := exts.length
      exts := get_extension_array_name exts
      operands := fixedOps
      ref_type_id := (operands.map (fun o => o.kind)).contains ("IdResultType")
      def_result_id := (operands.map (fun o => o.kind)).contains ("IdResult")
      version := convert_min_required_version version
      lastVersion := convert_max_required_version lastVersion }

/-- `InstInitializer.__str__`. -/
def instInitStr (i : InstInit) : String :=
  ("\x7b\"") ++ i.opname ++ ("\", SpvOp") ++ i.opname ++ (", ") ++ toString i.num_caps
    ++ (", ") ++ i.caps_mask ++ (", ") ++ toString i.operands.length ++ (", \x7b")
    ++ String.intercalate (", ") i.operands ++ ("\x7d, ")
    ++ (if i.def_result_id then "1" else "0") ++ (", ")
    ++ (if i.ref_type_id then "1" else "0") ++ (", ") ++ toString i.num_exts ++ (", ")
    ++ i.exts ++ (", ") ++ i.version ++ (", ") ++ i.lastVersion ++ ("\x7d")

structure ExtInstInit where
  opname : String
  opcode : Int
  num_caps : Nat
  caps_mask : String
  operands : List String
deriving DecidableEq

/-- `ExtInstInitializer.__init__`: converts the operand kinds and then appends
`SPV_OPERAND_TYPE_NONE`. -/
def mkExtInstInitializer (opname : String) (opcode : Int) (caps : List String)
    (operands : List OperandSpec) : ExtInstInit :=
  { opname := opname
    opcode := opcode
    num_caps := caps.length
    caps_mask := get_capability_array_name caps
    operands :=
      operands.map (fun o => convert_operand_kind o.kind o.quantifier)
        ++ [("SPV_OPERAND_TYPE_NONE")] }

/-- `ExtInstInitializer.__str__`. -/
def extInstInitStr (i : ExtInstInit) : String :=
  ("\x7b\"") ++ i.opname ++ ("\", ") ++ toString i.opcode ++ (", ")
    ++ toString i.num_caps ++ (", ") ++ i.caps_mask ++ (", \x7b")
    ++ String.intercalate (", ") i.operands ++ ("\x7d\x7d")

/-- `generate_instruction(inst, is_ext_inst)`: `assert opname is not None`,
then the matching initializer rendered. -/
def generate_instruction (inst : Inst) (is_ext_inst : Bool) : Option String :=
  match inst.opname with
  | none => none
  | some opname =>
    if is_ext_inst then
      some (extInstInitStr (mkExtInstInitializer opname inst.opcode inst.capabilities
        inst.operands))
    else
      (mkInstInitializer opname inst.capabilities inst.extensions inst.operands
        inst.version inst.lastVersion).map instInitStr

/-! ## The core instruction table (`generate_instruction_table`) -/

/-- The sort key `(k['opcode'], k['opname'])`; a missing `opname` aborts the
table (Python raises a KeyError inside `sorted`), so the default never
reaches a rendered table. -/
def instSortKey (i : Inst) : Int × String := (i.opcode, i.opname.getD (""))

def cmpInstKey : Int × String → Int × String → Ordering := cmpLex cmpInt cmpStr

/-- `sorted(inst_table, key=lambda k: (k['opcode'], k['opname']))`. -/
def sortInstructions (l : List Inst) : List Inst := pySorted instSortKey cmpInstKey l

def optMapM (g : α → Option β) : List α → Option (List β)
  | [] => some []
  | a :: l =>
    match g a, optMapM g l with
    | some b, some bs => some (b :: bs)
    | _, _ => none

/-- The body of `generate_instruction_table` applied to an already sorted
list: the capability and extension arrays followed by the descriptor array. -/
def renderInstructionTable (sorted : List Inst) : Option String :=
  let caps_arrays := generate_capability_arrays (sorted.map (fun i => i.capabilities))
  let exts_arrays := generate_extension_arrays (sorted.map (fun i => i.extensions))
  match optMapM (fun i => generate_instruction i false) sorted with
  | none => none
  | some insts =>
    let table := ("static const spv_opcode_desc_t kOpcodeTableEntries[] = \x7b\n  ")
      ++ String.intercalate (",\n  ") insts ++ ("\n\x7d;")
    some (caps_arrays ++ ("\n\n") ++ exts_arrays ++ ("\n\n") ++ table)

/-- `generate_instruction_table`: sort (a missing `opname` raises inside the
sort's key function), then render. -/
def generate_instruction_table (inst_table : List Inst) : Option String :=
  if inst_table.all (fun i => i.opname.isSome) then
    renderInstructionTable (sortInstructions inst_table)
  else none

/-- `generate_extended_instruction_table` body for one grammar (sorted by
opcode alone). -/
def generate_extended_instruction_table (g : Grammar) (set_name : String) :
    Option String :=
  let sorted := pySorted (fun i => i.opcode) cmpInt g.instructions
  let caps_arrays := generate_capability_arrays (sorted.map (fun i => i.capabilities))
  match optMapM (fun i => generate_instruction i true) sorted with
  | none => none
  | some insts =>
    let table := ("static const spv_ext_inst_desc_t ") ++ set_name
      ++ ("_entries[] = \x7b\n  ") ++ String.intercalate (",\n  ") insts ++ ("\n\x7d;")
    some (caps_arrays ++ ("\n\n") ++ table)

/-! ## Enumerant descriptors (`EnumerantInitializer`,
`generate_enum_operand_kind_entry`, `generate_enum_operand_kind`) -/

def hexDigitVal (c : Char) : Option Nat :=
  if '0' ≤ c ∧ c ≤ '9' then some (c.toNat - 48)
  else if 'a' ≤ c ∧ c ≤ 'f' then some (c.toNat - 87)
  else if 'A' ≤ c ∧ c ≤ 'F' then some (c.toNat - 55)
  else none

def hexDigitsVal (acc : Nat) : List Char → Option Nat
  | [] => some acc
  | c :: rest =>
    match hexDigitVal c with
    | none => none
    | some d => hexDigitsVal (acc * 16 + d) rest

/-- Python's `int(s, 16)` on the grammar's hex strings: an optional `0x`/`0X`
marker followed by at least one hex digit; anything else raises, modelled as
`none`. -/
def parseHex (s : String) : Option Int :=
  let cs :=
    match s.data with
    | '0' :: 'x' :: rest => rest
    | '0' :: 'X' :: rest => rest
    | cs => cs
  match cs with
  | [] => none
  | _ => (hexDigitsVal 0 cs).map Int.ofNat

/-- The sort key of `generate_enum_operand_kind`: for a `ValueEnum` the raw
numeric value (`k['value']`), otherwise `int(k['value'], 16)`.  A missing
value (KeyError) or a value of the wrong shape (Python would raise a
TypeError comparing or parsing it) is `none` and aborts.  (The grammar gives
`ValueEnum` enumerants JSON numbers and `BitEnum` enumerants hex strings.) -/
def enumSortKey (category : Option String) (e : Enumerant) : Option Int :=
  if category = some ("ValueEnum") then
    match e.value with
    | some (JVal.num n) => some n
    | _ => none
  else
    match e.value with
    | some (JVal.str s) => parseHex s
    | _ => none

/-- `sorted(enum.get('enumerants', []), key=functor)` — stable, so aliases
keep their declaration order. -/
def sortEnumerants (category : Option String) (entries : List Enumerant) :
    Option (List Enumerant) :=
  match optMapM (fun e => (enumSortKey category e).map (fun k => (k, e))) entries with
  | none => none
  | some keyed => some ((pySorted (fun p => p.1) cmpInt keyed).map (fun p => p.2))

/-- The per-kind alias extension map built by `generate_enum_operand_kind`:
for each value, the order-preserving deduplicated union of the extension
lists of the (sorted) entries carrying that value. -/
def aliasExtMap (sortedEntries : List Enumerant) (v : Option JVal) : List String :=
  dedupF (((sortedEntries.filter (fun e => e.value = v)).map
    (fun e => e.extensions)).flatten)

/-- `generate_enum_operand_kind_entry(entry, extension_map)`:
`assert enumerant is not None`, `assert value is not None`, then the
`EnumerantInitializer` rendering. -/
def generate_enum_operand_kind_entry (e : Enumerant)
    (extMap : Option JVal → List String) : Option String :=
  match e.enumerant with
  | none => none
  | some name =>
  match e.value with
  | none => none
  | some v =>
  let exts := extMap (some v)
  let params := e.parameters.map (fun k => convert_operand_kind k (""))
  some (("\x7b\"") ++ name ++ ("\", ") ++ jvalRender v ++ (", ")
    ++ toString e.capabilities.length ++ (", ")
    ++ get_capability_array_name e.capabilities ++ (", ") ++ toString exts.length
    ++ (", ") ++ get_extension_array_name exts ++ (", \x7b")
    ++ String.intercalate (", ") params ++ ("\x7d, ")
    ++ convert_min_required_version e.version ++ (", ")
    ++ convert_max_required_version e.lastVersion ++ ("\x7d"))

/-- The result of `generate_enum_operand_kind`: the kind, the array's name,
the rendered array, and the extension lists it appended to
`synthetic_exts_list` (the alias map's values in key insertion order). -/
structure EnumKindResult where
  kind : String
  name : String
  entries : String
  syntheticExts : List (List String)
deriving DecidableEq

def generate_enum_operand_kind (enum : OperandKind) : Option EnumKindResult :=
  match enum.kind with
  | none => none
  | some kind =>
  match sortEnumerants enum.category enum.enumerants with
  | none => none
  | some sortedEntries =>
  let extMap := aliasExtMap sortedEntries
  let name := ("pygen_variable_") ++ kind ++ ("Entries")
  match optMapM
      (fun e => (generate_enum_operand_kind_entry e extMap).map (fun s => ("  ") ++ s))
      sortedEntries with
  | none => none
  | some entryLines =>
  some
    { kind := kind
      name := name
      entries := ("static const spv_operand_desc_t ") ++ name ++ ("[] = \x7b\n")
        ++ String.intercalate (",\n") entryLines ++ ("\n\x7d;")
      syntheticExts := (dedupF (sortedEntries.map (fun e => e.value))).map extMap }

/-! ## The operand kind table (`generate_operand_kind_table`) -/

/-- `[e for e in enums if e.get('category') in ['ValueEnum', 'BitEnum']]`. -/
def tabulatedEnums (operand_kinds : List OperandKind) : List OperandKind :=
  operand_kinds.filter
    (fun e => e.category = some ("ValueEnum") ∨ e.category = some ("BitEnum"))

/-- The kinds re-registered with an optional variant
(`three_optional_enums`). -/
def threeOptionalOf (results : List EnumKindResult) : List EnumKindResult :=
  results.filter (fun e =>
    e.kind = ("ImageOperands") ∨ e.kind = ("AccessQualifier")
      ∨ e.kind = ("MemoryAccess"))

/-- The `(converted kind identifier, array name)` pair of every row of the
operand info table: the duplicated results are appended, the quantifier list
marks the last three positions `'?'`, and `zip` truncates as in Python. -/
def operandTableRowData (results : List EnumKindResult) : List (String × String) :=
  let ext := results ++ threeOptionalOf results
  let quants := List.replicate (ext.length - 3) ("") ++ List.replicate 3 ("?")
  (((ext.map (fun r => r.kind)).zip quants).map
    (fun p => convert_operand_kind p.1 p.2)).zip (ext.map (fun r => r.name))

/-- `enum_entries = enum_entries[:-3]`: the rendered arrays kept in the
artifact (the last three, the duplicates, are dropped to avoid
redefinition). -/
def keptEntryStrings (results : List EnumKindResult) : List String :=
  let ext := results ++ threeOptionalOf results
  (ext.map (fun r => r.entries)).take (ext.length - 3)

/-- `operandTableRowData` reached from raw operand kinds. -/
def operandTableRows (operand_kinds : List OperandKind) :
    Option (List (String × String)) :=
  (optMapM generate_enum_operand_kind (tabulatedEnums operand_kinds)).map
    operandTableRowData

def generate_operand_kind_table (operand_kinds : List OperandKind) : Option String :=
  let enums := tabulatedEnums operand_kinds
  let caps := (enums.map (fun e => e.enumerants.map (fun en => en.capabilities))).flatten
  let caps_arrays := generate_capability_arrays caps
  match optMapM generate_enum_operand_kind enums with
  | none => none
  | some results =>
  let exts := (enums.map (fun e => e.enumerants.map (fun en => en.extensions))).flatten
    ++ (results.map (fun r => r.syntheticExts)).flatten
  let exts_arrays := generate_extension_arrays exts
  if results.isEmpty then none
  else
    let rows := (operandTableRowData results).map (fun p =>
      ("  \x7b") ++ p.1 ++ (", ARRAY_SIZE(") ++ p.2 ++ ("), ") ++ p.2 ++ ("\x7d"))
    let table := ("static const spv_operand_desc_group_t pygen_variable_OperandInfoTable[] = \x7b\n")
      ++ String.intercalate (",\n") rows ++ ("\n\x7d;")
    some (String.intercalate ("\n\n")
      ([caps_arrays, exts_arrays] ++ keptEntryStrings results ++ [table]))

/-! ## The extension registry (`get_extension_list`) and the enumerant merge
(`precondition_operand_kinds`) -/

/-- The fixed supplementary list
`EXTENSIONS_FROM_SPIRV_REGISTRY_AND_NOT_FROM_GRAMMARS.split()`. -/
def EXTENSIONS_FROM_SPIRV_REGISTRY_AND_NOT_FROM_GRAMMARS : List String :=
  [("SPV_AMD_gcn_shader"), ("SPV_AMD_gpu_shader_half_float"),
   ("SPV_AMD_gpu_shader_int16"), ("SPV_AMD_shader_trinary_minmax"),
   ("SPV_KHR_non_semantic_info")]

/-- `sorted(set(l))` over strings. -/
def sortedDedupStrings (l : List String) : List String :=
  pySorted (fun s => s) cmpStr (dedupF l)

/-- The `extensions` list `get_extension_list` accumulates before its
assertions: every truthy `extensions` field of an instruction or an operand
kind enumerant, concatenated. -/
def declaredExtensions (instructions : List Inst) (operand_kinds : List OperandKind) :
    List String :=
  (((instructions.map (fun i => i.extensions))
      ++ ((operand_kinds.map (fun k => k.enumerants)).flatten.map
        (fun e => e.extensions))).filter (fun l => !l.isEmpty)).flatten

/-- `get_extension_list`: the assertion that no supplementary name is already
grammar-declared, then the supplementary list and the validator
pseudo-extension appended and the whole sorted and deduplicated. -/
def get_extension_list (instructions : List Inst) (operand_kinds : List OperandKind) :
    Option (List String) :=
  let extensions := declaredExtensions instructions operand_kinds
  if EXTENSIONS_FROM_SPIRV_REGISTRY_AND_NOT_FROM_GRAMMARS.all
      (fun i => !(extensions.contains i)) then
    some (sortedDedupStrings (extensions
      ++ EXTENSIONS_FROM_SPIRV_REGISTRY_AND_NOT_FROM_GRAMMARS
      ++ [("SPV_VALIDATOR_ignore_type_decl_unique")]))
  else none

/-- The dict key `kind + '.' + str(value)` of `precondition_operand_kinds`. -/
def enumGroupKey (kindName : String) (e : Enumerant) : String :=
  kindName ++ (".") ++ pyStrOpt e.value

/-- The concatenation of the extension lists of every enumerant (of any kind
entry) whose group key is `key` — what the first loop of
`precondition_operand_kinds` accumulates under that dict key. -/
def groupExtensions (operand_kinds : List OperandKind) (key : String) : List String :=
  ((operand_kinds.map (fun k =>
      (k.enumerants.filter (fun e => enumGroupKey (k.kind.getD ("")) e = key)).map
        (fun e => e.extensions))).flatten).flatten

/-- `precondition_operand_kinds`: every same-keyed group's extension lists are
replaced by `sorted(set(union))` when that union is non-empty.  A kind entry
with enumerants but no `kind` name makes Python concatenate `None + '.'`
(a TypeError), modelled as `none`. -/
def precondition_operand_kinds (operand_kinds : List OperandKind) :
    Option (List OperandKind) :=
  if operand_kinds.all (fun k => k.enumerants.isEmpty || k.kind.isSome) then
    some (operand_kinds.map (fun k =>
      { k with
        enumerants := k.enumerants.map (fun e =>
          let u := sortedDedupStrings
            (groupExtensions operand_kinds (enumGroupKey (k.kind.getD ("")) e))
          if u.isEmpty then e else { e with extensions := u }) }))
  else none

/-! ## String/enum mappings (`generate_extension_enum`,
`generate_all_string_enum_mappings`) -/

def generate_extension_enum (extensions : List String) : String :=
  String.intercalate (",\n") (extensions.map (fun e => ("k") ++ e))

def generate_extension_to_string_mapping (extensions : List String) : String :=
  ("const char* ExtensionToString(Extension extension) \x7b\n")
    ++ ("  switch (extension) \x7b\n")
    ++ String.join (extensions.map (fun e =>
      ("    case Extension::k") ++ e ++ (":\n      return \"") ++ e ++ ("\";\n")))
    ++ ("  \x7d;\n\n  return \"\";\n\x7d")

def generate_string_to_extension_mapping (extensions : List String) : String :=
  ("\n    bool GetExtensionFromString(const char* str, Extension* extension) \x7b\n")
    ++ ("        static const char* known_ext_strs[] = \x7b ")
    ++ String.intercalate (", ") (extensions.map (fun e => ("\"") ++ e ++ ("\"")))
    ++ (" \x7d;\n")
    ++ ("        static const Extension known_ext_ids[] = \x7b ")
    ++ String.intercalate (", ") (extensions.map (fun e => ("Extension::k") ++ e))
    ++ (" \x7d;\n")
    ++ ("        const auto b = std::begin(known_ext_strs);\n")
    ++ ("        const auto e = std::end(known_ext_strs);\n")
    ++ ("        const auto found = std::equal_range(\n")
    ++ ("            b, e, str, [](const char* str1, const char* str2) \x7b\n")
    ++ ("                return std::strcmp(str1, str2) < 0;\n")
    ++ ("            \x7d);\n")
    ++ ("        if (found.first == e || found.first == found.second) return false;\n\n")
    ++ ("        *extension = known_ext_ids[found.first - b];\n")
    ++ ("        return true;\n")
    ++ ("    \x7d\n    ")

/-- `get_capabilities`: the enumerants of the kinds named `Capability`, in
order of appearance. -/
def get_capabilities (operand_kinds : List OperandKind) : List Enumerant :=
  ((operand_kinds.filter (fun k => k.kind = some ("Capability"))).map
    (fun k => k.enumerants)).flatten

/-- The `emitted` set of `generate_capability_to_string_mapping`: keep the
first enumerant carrying each value. -/
def uniqueByValueGo (seen : List (Option JVal)) : List Enumerant → List Enumerant
  | [] => []
  | c :: rest =>
    if c.value ∈ seen then uniqueByValueGo seen rest
    else c :: uniqueByValueGo (c.value :: seen) rest

def uniqueByValue (caps : List Enumerant) : List Enumerant := uniqueByValueGo [] caps

/-- `'{}'.format(x)` of an optional string (`None` prints as `"None"`). -/
def optNameFormat : Option String → String
  | none => "None"
  | some s => s

def generate_capability_to_string_mapping (operand_kinds : List OperandKind) : String :=
  ("const char* CapabilityToString(SpvCapability capability) \x7b\n")
    ++ ("  switch (capability) \x7b\n")
    ++ String.join ((uniqueByValue (get_capabilities operand_kinds)).map (fun c =>
      ("    case SpvCapability") ++ optNameFormat c.enumerant
        ++ (":\n      return \"") ++ optNameFormat c.enumerant ++ ("\";\n")))
    ++ ("    case SpvCapabilityMax:\n")
    ++ ("      assert(0 && \"Attempting to convert SpvCapabilityMax to string\");\n")
    ++ ("      return \"\";\n")
    ++ ("  \x7d;\n\n  return \"\";\n\x7d")

def generate_all_string_enum_mappings (extensions : List String)
    (operand_kinds : List OperandKind) : String :=
  String.intercalate ("\n\n")
    [generate_extension_to_string_mapping extensions,
     generate_string_to_extension_mapping extensions,
     generate_capability_to_string_mapping operand_kinds]

/-! ## `main`'s core-grammar branch -/

/-- `prefix_operand_kind_names(prefix, json_dict)`: every operand kind name
gets the marker string prepended (`operand_kind["kind"]` is subscripted
directly: a missing name raises, modelled `none`), and every instruction
operand naming an old kind is rewritten. -/
def prependKindNames (pre : String) (g : Grammar) : Option Grammar :=
  match optMapM
      (fun k => k.kind.map (fun kn => { k with kind := some (pre ++ kn) }))
      g.operand_kinds with
  | none => none
  | some kinds =>
    let oldNames := g.operand_kinds.filterMap (fun k => k.kind)
    let insts := g.instructions.map (fun i =>
      { i with
        operands := i.operands.map (fun o =>
          if oldNames.contains o.kind then { o with kind := pre ++ o.kind } else o) })
    some { instructions := insts, operand_kinds := kinds }

/-- The merged instruction and operand-kind universe `main` builds from the
core, DebugInfo and (prefixed) OpenCL.DebugInfo.100 grammars. -/
def mergedGrammars (core debuginfo cldebug : Grammar) :
    Option (List Inst × List OperandKind) :=
  match prependKindNames ("CLDEBUG100_") cldebug with
  | none => none
  | some cld =>
    some (core.instructions ++ debuginfo.instructions ++ cld.instructions,
      core.operand_kinds ++ debuginfo.operand_kinds ++ cld.operand_kinds)

/-- The write stage of `main`'s core-grammar branch, after the merged model,
the extension list and the preconditioned operand kinds are in hand: the
core instruction table and the operand kind table (when requested, in that
order — the first is written before the second is constructed), then the
extension enumeration, then the string mappings. -/
def mainWriteStage (core : Grammar) (extensions : List String)
    (operand_kinds2 : List OperandKind)
    (wantCore wantExtEnum wantMapping : Bool) : List (String × String) × Bool :=
  let step1 : List (String × String) × Bool :=
    if wantCore then
      match generate_instruction_table core.instructions with
      | none => ([], false)
      | some coreTable =>
        match generate_operand_kind_table operand_kinds2 with
        | none => ([(("core_insts_output"), coreTable)], false)
        | some kindTable =>
          ([(("core_insts_output"), coreTable),
            (("operand_kinds_output"), kindTable)], true)
    else ([], true)
  if step1.2 then
    let step2 :=
      if wantExtEnum then
        step1.1 ++ [(("extension_enum_output"), generate_extension_enum extensions)]
      else step1.1
    let step3 :=
      if wantMapping then
        step2 ++ [(("enum_string_mapping_output"),
          generate_all_string_enum_mappings extensions operand_kinds2)]
      else step2
    (step3, true)
  else step1

/-- The registry and merge stage: `get_extension_list` (its assertion may
fire) and `precondition_operand_kinds` (a nameless kind with enumerants
raises) run before any write. -/
def mainRegistryStage (core : Grammar) (instructions : List Inst)
    (operand_kinds : List OperandKind)
    (wantCore wantExtEnum wantMapping : Bool) : List (String × String) × Bool :=
  match get_extension_list instructions operand_kinds with
  | none => ([], false)
  | some extensions =>
    match precondition_operand_kinds operand_kinds with
    | none => ([], false)
    | some operand_kinds2 =>
      mainWriteStage core extensions operand_kinds2 wantCore wantExtEnum wantMapping

/-- `main`'s core-grammar branch: the list of `(output designator, text)`
writes it performs, in order, and whether it ran to completion.  A raised
exception stops the run: writes already made stay made, nothing later is
written.  (The glsl/opencl/vendor branches reuse
`generate_extended_instruction_table` and are independent files written
after these.) -/
def runMain (core debuginfo cldebug : Grammar)
    (wantCore wantExtEnum wantMapping : Bool) : List (String × String) × Bool :=
  match mergedGrammars core debuginfo cldebug with
  | none => ([], false)
  | some (instructions, operand_kinds) =>
    mainRegistryStage core instructions operand_kinds wantCore wantExtEnum wantMapping

theorem runMain_merge_none {core debuginfo cldebug : Grammar}
    (hm : mergedGrammars core debuginfo cldebug = none) (wc we wm : Bool) :
    runMain core debuginfo cldebug wc we wm = ([], false) := by
  rw [runMain, hm]

theorem runMain_merge_some {core debuginfo cldebug : Grammar}
    {insts : List Inst} {kinds : List OperandKind}
    (hm : mergedGrammars core debuginfo cldebug = some (insts, kinds)) (wc we wm : Bool) :
    runMain core debuginfo cldebug wc we wm
      = mainRegistryStage core insts kinds wc we wm := by
  rw [runMain, hm]

theorem mainRegistryStage_ext_none {core : Grammar} {insts : List Inst}
    {kinds : List OperandKind} (hext : get_extension_list insts kinds = none)
    (wc we wm : Bool) :
    mainRegistryStage core insts kinds wc we wm = ([], false) := by
  rw [mainRegistryStage, hext]

theorem mainRegistryStage_pre_none {core : Grammar} {insts : List Inst}
    {kinds : List OperandKind} {exts : List String}
    (hext : get_extension_list insts kinds = some exts)
    (hpre : precondition_operand_kinds kinds = none) (wc we wm : Bool) :
    mainRegistryStage core insts kinds wc we wm = ([], false) := by
  rw [mainRegistryStage, hext, hpre]

theorem mainRegistryStage_some {core : Grammar} {insts : List Inst}
    {kinds : List OperandKind} {exts : List String} {kinds2 : List OperandKind}
    (hext : get_extension_list insts kinds = some exts)
    (hpre : precondition_operand_kinds kinds = some kinds2) (wc we wm : Bool) :
    mainRegistryStage core insts kinds wc we wm
      = mainWriteStage core exts kinds2 wc we wm := by
  rw [mainRegistryStage, hext, hpre]

theorem mainWriteStage_inst_none {core : Grammar} {exts : List String}
    {kinds2 : List OperandKind}
    (hinst : generate_instruction_table core.instructions = none) (we wm : Bool) :
    mainWriteStage core exts kinds2 true we wm = ([], false) := by
  rw [mainWriteStage]
  simp [hinst]

theorem mainWriteStage_kind_none {core : Grammar} {exts : List String}
    {kinds2 : List OperandKind} {coreTable : String}
    (hinst : generate_instruction_table core.instructions = some coreTable)
    (hkind : generate_operand_kind_table kinds2 = none) (we wm : Bool) :
    mainWriteStage core exts kinds2 true we wm
      = ([(("core_insts_output"), coreTable)], false) := by
  rw [mainWriteStage]
  simp [hinst, hkind]

/-! ## Auxiliary lemmas -/

theorem leOfCmp_cmpInt_iff (a b : Int) : leOfCmp cmpInt a b = true ↔ a ≤ b := by
  rw [leOfCmp]
  unfold cmpInt
  split_ifs with h1 h2 <;> simp <;> omega

theorem leOfCmp_antisymm {cmp : α → α → Ordering} (h : LawfulCmp cmp) {a b : α}
    (hab : leOfCmp cmp a b = true) (hba : leOfCmp cmp b a = true) : a = b := by
  have hop := h.opp a b
  rcases hc : cmp a b with _ | _ | _
  · rw [hc] at hop
    rw [leOfCmp, hop] at hba
    cases hba
  · exact (h.eq_iff a b).mp hc
  · rw [leOfCmp, hc] at hab
    cases hab

theorem strData_inj {s t : String} (h : s.data = t.data) : s = t := by
  cases s
  cases t
  exact congrArg String.mk h

theorem optMapM_eq_none {g : α → Option β} {l : List α} {a : α}
    (ha : a ∈ l) (hg : g a = none) : optMapM g l = none := by
  induction l with
  | nil => cases ha
  | cons x xs ih =>
    rcases List.mem_cons.mp ha with h1 | h2
    · rw [h1] at hg
      rw [optMapM, hg]
    · rw [optMapM, ih h2]
      cases g x <;> rfl

theorem optMapM_forall2 {g : α → Option β} {l : List α} {m : List β}
    (h : optMapM g l = some m) : List.Forall₂ (fun a b => g a = some b) l m := by
  induction l generalizing m with
  | nil =>
    rw [optMapM] at h
    injection h with h
    rw [← h]
    exact List.Forall₂.nil
  | cons x xs ih =>
    rw [optMapM] at h
    rcases hx : g x with _ | b <;> rw [hx] at h
    · cases h
    · rcases hxs : optMapM g xs with _ | bs <;> rw [hxs] at h
      · cases h
      · injection h with h
        rw [← h]
        exact List.Forall₂.cons hx (ih hxs)

theorem mem_dedupFGo [DecidableEq α] (seen : List α) (l : List α) (a : α) :
    a ∈ dedupFGo seen l ↔ a ∈ l ∧ a ∉ seen := by
  induction l generalizing seen with
  | nil => simp [dedupFGo]
  | cons x xs ih =>
    rw [dedupFGo]
    by_cases hx : x ∈ seen
    · rw [if_pos hx, ih]
      constructor
      · intro ⟨h1, h2⟩
        exact ⟨List.mem_cons_of_mem x h1, h2⟩
      · intro ⟨h1, h2⟩
        rcases List.mem_cons.mp h1 with h3 | h3
        · rw [h3] at h2
          exact absurd hx h2
        · exact ⟨h3, h2⟩
    · rw [if_neg hx]
      constructor
      · intro h1
        rcases List.mem_cons.mp h1 with h3 | h3
        · rw [h3]
          exact ⟨List.mem_cons_self x xs, hx⟩
        · rcases (ih (x :: seen)).mp h3 with ⟨h4, h5⟩
          refine ⟨List.mem_cons_of_mem x h4, ?_⟩
          intro hc
          exact h5 (List.mem_cons_of_mem x hc)
      · intro ⟨h1, h2⟩
        rcases List.mem_cons.mp h1 with h3 | h3
        · rw [h3]
          exact List.mem_cons_self _ _
        · by_cases hax : a = x
          · rw [hax]
            exact List.mem_cons_self x _
          · refine List.mem_cons_of_mem x ((ih (x :: seen)).mpr ⟨h3, ?_⟩)
            intro hc
            rcases List.mem_cons.mp hc with h4 | h4
            · exact hax h4
            · exact h2 h4

theorem mem_dedupF [DecidableEq α] (l : List α) (a : α) : a ∈ dedupF l ↔ a ∈ l := by
  rw [dedupF, mem_dedupFGo]
  simp

theorem nodup_dedupFGo [DecidableEq α] (seen : List α) (l : List α) :
    (dedupFGo seen l).Nodup := by
  induction l generalizing seen with
  | nil => exact List.nodup_nil
  | cons x xs ih =>
    rw [dedupFGo]
    by_cases hx : x ∈ seen
    · rw [if_pos hx]
      exact ih seen
    · rw [if_neg hx]
      refine List.nodup_cons.mpr ⟨?_, ih (x :: seen)⟩
      intro hc
      exact ((mem_dedupFGo _ _ _).mp hc).2 (List.mem_cons_self x seen)

theorem nodup_dedupF [DecidableEq α] (l : List α) : (dedupF l).Nodup :=
  nodup_dedupFGo [] l

theorem sortedDedupStrings_mem (l : List String) (s : String) :
    s ∈ sortedDedupStrings l ↔ s ∈ l := by
  rw [sortedDedupStrings, (pySorted_perm _ _ _).mem_iff, mem_dedupF]

theorem sortedDedupStrings_nodup (l : List String) : (sortedDedupStrings l).Nodup :=
  ((pySorted_perm _ _ _).nodup_iff).mpr (nodup_dedupF l)

theorem sortedDedupStrings_pairwise (l : List String) :
    (sortedDedupStrings l).Pairwise (fun a b => leOfCmp cmpStr a b = true) :=
  pySorted_pairwise (fun s => s) lawfulCmpStr (dedupF l)

theorem sortedDedupStrings_eq_nil {l : List String}
    (h : sortedDedupStrings l = []) : l = [] := by
  cases l with
  | nil => rfl
  | cons x xs =>
    have : x ∈ sortedDedupStrings (x :: xs) :=
      (sortedDedupStrings_mem _ _).mpr (List.mem_cons_self x xs)
    rw [h] at this
    cases this

theorem isEmpty_false_of_ne_nil {l : List α} (h : l ≠ []) : l.isEmpty = false := by
  cases l with
  | nil => exact absurd rfl h
  | cons x xs => rfl

/-! ## Claim C10 -/

/-- C10: every extended-instruction descriptor built by `ExtInstInitializer`
carries `SPV_OPERAND_TYPE_NONE` appended as the final element of its
operand-type list, after all converted operand kinds, for every input operand
list including the empty one. -/
theorem claim10_extinst_none_terminator (opname : String) (opcode : Int)
    (caps : List String) (operands : List OperandSpec) :
    (mkExtInstInitializer opname opcode caps operands).operands
        = operands.map (fun o => convert_operand_kind o.kind o.quantifier)
          ++ [("SPV_OPERAND_TYPE_NONE")]
    ∧ (mkExtInstInitializer opname opcode caps operands).operands.getLast?
        = some ("SPV_OPERAND_TYPE_NONE")
    ∧ (mkExtInstInitializer opname opcode caps operands).operands ≠ [] := by
  refine ⟨rfl, ?_, ?_⟩
  · show (operands.map (fun o => convert_operand_kind o.kind o.quantifier)
      ++ [("SPV_OPERAND_TYPE_NONE")]).getLast? = some ("SPV_OPERAND_TYPE_NONE")
    exact List.getLast?_concat _
  · show operands.map (fun o => convert_operand_kind o.kind o.quantifier)
      ++ [("SPV_OPERAND_TYPE_NONE")] ≠ []
    simp

/-! ## Claim C3 -/

/-- C3 counterexample: the lowercase literal `"none"` does not encode to the
all-ones sentinel — the comparison in `convert_min_required_version` is
against the capitalised `'None'`, so `"none"` falls through to the packing
branch. -/
theorem claim3_lowercase_none_counterexample :
    convert_min_required_version (some ("none")) = ("SPV_SPIRV_VERSION_WORD(none)")
    ∧ ("SPV_SPIRV_VERSION_WORD(none)") ≠ ("0xffffffffu") :=
  ⟨rfl, by decide⟩

/-- C3 (amended: the never-promoted marker is the capitalised literal
`"None"`): an absent minimum version encodes to the packed 1.0 word, the
literal `"None"` to the all-ones sentinel, an explicit `"X.Y"` (such as
`"1.3"`) to the packed `(X, Y)` word, and an absent maximum version to the
all-ones sentinel. -/
theorem claim3_version_encoding :
    convert_min_required_version none = ("SPV_SPIRV_VERSION_WORD(1, 0)")
    ∧ convert_min_required_version (some ("None")) = ("0xffffffffu")
    ∧ convert_min_required_version (some ("1.3")) = ("SPV_SPIRV_VERSION_WORD(1,3)")
    ∧ (∀ a b : Char, a.isDigit = true → b.isDigit = true →
        convert_min_required_version (some (⟨[a, '.', b]⟩ : String))
          = ("SPV_SPIRV_VERSION_WORD(") ++ (⟨[a, ',', b]⟩ : String) ++ (")"))
    ∧ convert_max_required_version none = ("0xffffffffu") := by
  refine ⟨rfl, rfl, rfl, ?_, rfl⟩
  intro a b ha hb
  have hda : a ≠ '.' := by
    intro hc
    rw [hc] at ha
    exact absurd ha (by decide)
  have hdb : b ≠ '.' := by
    intro hc
    rw [hc] at hb
    exact absurd hb (by decide)
  have hne : (⟨[a, '.', b]⟩ : String) ≠ ("None") := by
    intro hc
    have hd := congrArg String.data hc
    simp at hd
  have hmap : dotToComma (⟨[a, '.', b]⟩ : String) = (⟨[a, ',', b]⟩ : String) := by
    rw [dotToComma]
    apply congrArg String.mk
    simp [hda, hdb]
  rw [convert_min_required_version, if_neg hne, hmap]

/-- C3 witness: the digit-general packing clause at the concrete version
string `"1.3"`. -/
theorem claim3_witness :
    convert_min_required_version (some (⟨['1', '.', '3']⟩ : String))
      = ("SPV_SPIRV_VERSION_WORD(") ++ (⟨['1', ',', '3']⟩ : String) ++ (")") :=
  claim3_version_encoding.2.2.2.1 '1' '3' (by decide) (by decide)

/-! ## Claim C6 -/

/-- C6 counterexample: an extended-instruction-call instruction whose raw
grammar lists two trailing variadic id-references still renders an
operand-type list that ends with the variadic-id type — the fix-up pops only
one element.  So "never ends with the variadic-id type" fails. -/
theorem claim6_double_variadic_counterexample :
    (mkInstInitializer ("OpExtInst") [] []
        [{ kind := ("IdRef"), quantifier := ("*") },
         { kind := ("IdRef"), quantifier := ("*") }] none none).map
      (fun i => i.operands)
        = some [("SPV_OPERAND_TYPE_VARIABLE_ID")]
    ∧ ([("SPV_OPERAND_TYPE_VARIABLE_ID")] : List String).getLast?
        = some ("SPV_OPERAND_TYPE_VARIABLE_ID") :=
  ⟨rfl, rfl⟩

theorem extInstFixup_eq_nil {ops : List String} (h : ops.getLast? = none) :
    extInstFixup ("ExtInst") ops = none := by
  rw [extInstFixup, if_pos rfl, h]

theorem extInstFixup_pop {ops : List String}
    (h : ops.getLast? = some ("SPV_OPERAND_TYPE_VARIABLE_ID")) :
    extInstFixup ("ExtInst") ops = some ops.dropLast := by
  rw [extInstFixup, if_pos rfl, h]
  simp

theorem extInstFixup_keep {ops : List String} {lastOp : String}
    (h : ops.getLast? = some lastOp)
    (hne : lastOp ≠ ("SPV_OPERAND_TYPE_VARIABLE_ID")) :
    extInstFixup ("ExtInst") ops = some ops := by
  rw [extInstFixup, if_pos rfl, h]
  simp [hne]

theorem extInstFixup_other {opname : String} (hne : opname ≠ ("ExtInst"))
    (ops : List String) : extInstFixup opname ops = some ops := by
  rw [extInstFixup, if_neg hne]

/-- C6 (amended: the fix-up drops exactly the final element when it is the
variadic-id type): for `OpExtInst` — and only for it — a trailing
`SPV_OPERAND_TYPE_VARIABLE_ID` is popped once; every other instruction's
operand-type list is left unchanged; and when the popped list does not itself
still end in the variadic-id type (the case of the actual grammar, where only
the final operand is variadic), the rendered list no longer ends with it. -/
theorem claim6_extinst_fixup_scope (opname : String) (caps exts : List String)
    (operands : List OperandSpec) (version lastVersion : Option String)
    (ini : InstInit)
    (h : mkInstInitializer opname caps exts operands version lastVersion = some ini) :
    (ini.opname ≠ ("ExtInst") →
        ini.operands = operands.map (fun o => convert_operand_kind o.kind o.quantifier))
    ∧ (ini.opname = ("ExtInst") →
        (operands.map (fun o => convert_operand_kind o.kind o.quantifier)).getLast?
            = some ("SPV_OPERAND_TYPE_VARIABLE_ID") →
        ini.operands
          = (operands.map (fun o => convert_operand_kind o.kind o.quantifier)).dropLast)
    ∧ (ini.opname = ("ExtInst") →
        (operands.map (fun o => convert_operand_kind o.kind o.quantifier)).getLast?
            ≠ some ("SPV_OPERAND_TYPE_VARIABLE_ID") →
        ini.operands = operands.map (fun o => convert_operand_kind o.kind o.quantifier))
    ∧ (ini.opname = ("ExtInst") →
        (operands.map (fun o => convert_operand_kind o.kind o.quantifier)).getLast?
            = some ("SPV_OPERAND_TYPE_VARIABLE_ID") →
        (operands.map (fun o => convert_operand_kind o.kind o.quantifier)).dropLast.getLast?
            ≠ some ("SPV_OPERAND_TYPE_VARIABLE_ID") →
        ini.operands.getLast? ≠ some ("SPV_OPERAND_TYPE_VARIABLE_ID")) := by
  rw [mkInstInitializer] at h
  split at h
  · exact Option.noConfusion h
  rename_i stripped hstrip
  split at h
  · exact Option.noConfusion h
  · rename_i fixedOps hfix
    injection h with h
    rw [← h]
    dsimp only
    refine ⟨?_, ?_, ?_, ?_⟩
    · intro hne
      rw [extInstFixup_other hne] at hfix
      injection hfix with hfix
      exact hfix.symm
    · intro heq hlast
      rw [heq, extInstFixup_pop hlast] at hfix
      injection hfix with hfix
      exact hfix.symm
    · intro heq hlast
      rcases hl : (operands.map (fun o => convert_operand_kind o.kind o.quantifier)).getLast?
          with _ | lastOp
      · rw [heq, extInstFixup_eq_nil hl] at hfix
        exact Option.noConfusion hfix
      · have hlo : lastOp ≠ ("SPV_OPERAND_TYPE_VARIABLE_ID") := by
          intro hc
          rw [hc] at hl
          exact hlast hl
        rw [heq, extInstFixup_keep hl hlo] at hfix
        injection hfix with hfix
        exact hfix.symm
    · intro heq hlast hdrop
      rw [heq, extInstFixup_pop hlast] at hfix
      injection hfix with hfix
      rw [← hfix]
      exact hdrop

/-- The operand shape of the real `OpExtInst` grammar entry (trailing
variadic id-reference). -/
def extInstGrammarOperands : List OperandSpec :=
  [{ kind := ("IdResultType"), quantifier := ("") },
   { kind := ("IdResult"), quantifier := ("") },
   { kind := ("IdRef"), quantifier := ("") },
   { kind := ("LiteralExtInstInteger"), quantifier := ("") },
   { kind := ("IdRef"), quantifier := ("*") }]

/-- The descriptor record the script builds for that entry. -/
def extInstGrammarDescriptor : InstInit :=
  { opname := ("ExtInst")
    num_caps := 0
    caps_mask := ("nullptr")
    num_exts := 0
    exts := ("nullptr")
    operands := [("SPV_OPERAND_TYPE_TYPE_ID"), ("SPV_OPERAND_TYPE_RESULT_ID"),
      ("SPV_OPERAND_TYPE_ID"), ("SPV_OPERAND_TYPE_EXTENSION_INSTRUCTION_NUMBER")]
    ref_type_id := true
    def_result_id := true
    version := ("SPV_SPIRV_VERSION_WORD(1, 0)")
    lastVersion := ("0xffffffffu") }

/-- C6 witness: the real shape of `OpExtInst` (one trailing variadic
id-reference): the fix-up pops it and the resulting list ends with the
extension-instruction-number type, not the variadic-id type. -/
theorem claim6_witness :
    mkInstInitializer ("OpExtInst") [] [] extInstGrammarOperands none none
        = some extInstGrammarDescriptor
    ∧ extInstGrammarDescriptor.operands.getLast?
        ≠ some ("SPV_OPERAND_TYPE_VARIABLE_ID") :=
  ⟨rfl,
   (claim6_extinst_fixup_scope ("OpExtInst") [] [] extInstGrammarOperands none none
      extInstGrammarDescriptor rfl).2.2.2 rfl rfl (by decide)⟩

/-! ## Claim C5 -/

/-- C5 counterexample: the array reference is keyed on the bare concatenation
of the member names, so the two distinct tuples `("ab", "abab")` and
`("abab", "ab")` — which differ only in element order — resolve to the same
array reference, not to two distinct arrays. -/
theorem claim5_join_collision_counterexample :
    get_capability_array_name [("ab"), ("abab")]
        = get_capability_array_name [("abab"), ("ab")]
    ∧ ([("ab"), ("abab")] : List String) ≠ [("abab"), ("ab")]
    ∧ ([("ab"), ("abab")] : List String).Perm [("abab"), ("ab")] := by
  refine ⟨rfl, by decide, ?_⟩
  exact List.Perm.swap _ _ _

/-- C5 (amended: distinct order-permuted tuples receive two distinct emitted
arrays and two distinct references whenever the concatenations of their names
differ, as in the claim's `(A, B)` versus `(B, A)` example; references are
keyed on that concatenation): exactly one array is emitted per distinct
non-empty tuple appearing in the model, the reference name is a function of
the tuple with the empty tuple mapped to the explicit `nullptr` marker and
never to a zero-length array, and tuples with different name concatenations
get different reference names.  The extension pool behaves identically. -/
theorem claim5_tuple_pooling :
    (∀ caps : List (List String),
        (capArrayTuples caps).Nodup
          ∧ ∀ t, t ∈ capArrayTuples caps ↔ t ∈ caps ∧ t ≠ [])
    ∧ get_capability_array_name [] = ("nullptr")
    ∧ (∀ c1 c2 : List String, c1 ≠ [] → c2 ≠ [] →
        String.join c1 ≠ String.join c2 →
        get_capability_array_name c1 ≠ get_capability_array_name c2)
    ∧ (∀ extensions : List (List String),
        (extArrayTuples extensions).Nodup
          ∧ ∀ t, t ∈ extArrayTuples extensions ↔ t ∈ extensions ∧ t ≠ [])
    ∧ get_extension_array_name [] = ("nullptr")
    ∧ (∀ e1 e2 : List String, e1 ≠ [] → e2 ≠ [] →
        String.join e1 ≠ String.join e2 →
        get_extension_array_name e1 ≠ get_extension_array_name e2) := by
  have hmemfilter : ∀ (l : List (List String)) (t : List String),
      t ∈ l.filter (fun c => !c.isEmpty) ↔ t ∈ l ∧ t ≠ [] := by
    intro l t
    rw [List.mem_filter]
    constructor
    · intro ⟨h1, h2⟩
      refine ⟨h1, ?_⟩
      intro hc
      rw [hc] at h2
      cases h2
    · intro ⟨h1, h2⟩
      exact ⟨h1, by rw [isEmpty_false_of_ne_nil h2]; rfl⟩
  have hinj : ∀ (p : String) (c1 c2 : List String),
      p ++ String.join c1 = p ++ String.join c2 → String.join c1 = String.join c2 := by
    intro p c1 c2 hc
    have hd := congrArg String.data hc
    have hd2 : p.data ++ (String.join c1).data = p.data ++ (String.join c2).data := hd
    exact strData_inj (List.append_cancel_left hd2)
  refine ⟨?_, rfl, ?_, ?_, rfl, ?_⟩
  · intro caps
    refine ⟨((pySorted_perm _ _ _).nodup_iff).mpr (nodup_dedupF _), ?_⟩
    intro t
    rw [capArrayTuples, (pySorted_perm _ _ _).mem_iff, mem_dedupF]
    exact hmemfilter caps t
  · intro c1 c2 h1 h2 hj hc
    rw [get_capability_array_name, get_capability_array_name,
      isEmpty_false_of_ne_nil h1, isEmpty_false_of_ne_nil h2] at hc
    simp only [Bool.false_eq_true, if_false] at hc
    exact hj (hinj _ c1 c2 hc)
  · intro extensions
    refine ⟨((pySorted_perm _ _ _).nodup_iff).mpr (nodup_dedupF _), ?_⟩
    intro t
    rw [extArrayTuples, (pySorted_perm _ _ _).mem_iff, mem_dedupF]
    exact hmemfilter extensions t
  · intro e1 e2 h1 h2 hj hc
    rw [get_extension_array_name, get_extension_array_name,
      isEmpty_false_of_ne_nil h1, isEmpty_false_of_ne_nil h2] at hc
    simp only [Bool.false_eq_true, if_false] at hc
    exact hj (hinj _ e1 e2 hc)

/-! ## Claim C4 -/

/-- C4: `generate_instruction_table` renders the descriptors in the order of
the stable sort on `(opcode, opname)`: the rendered table is computed from
`sortInstructions`, whose output is a permutation of the input, is
pairwise-ordered under the lexicographic `(opcode, opname)` key, and
preserves, for every key, the input's subsequence of entries carrying that
key — so equal-keyed entries keep their declaration order, and permuting
equal-keyed entries in the input permutes exactly those entries in the
output. -/
theorem claim4_instruction_table_sort (l : List Inst) :
    generate_instruction_table l = renderInstructionTable (sortInstructions l)
    ∧ (sortInstructions l).Perm l
    ∧ (sortInstructions l).Pairwise
        (fun a b => leOfCmp cmpInstKey (instSortKey a) (instSortKey b) = true)
    ∧ ∀ k : Int × String,
        (sortInstructions l).filter (fun i => instSortKey i = k)
          = l.filter (fun i => instSortKey i = k) := by
  have hlaw : LawfulCmp cmpInstKey := lawfulCmpLex lawfulCmpInt lawfulCmpStr
  refine ⟨?_, pySorted_perm _ _ _, pySorted_pairwise instSortKey hlaw l, ?_⟩
  · rw [generate_instruction_table]
    by_cases hall : l.all (fun i => i.opname.isSome)
    · rw [if_pos hall]
    · rw [if_neg hall]
      have hex : ∃ i ∈ l, i.opname = none := by
        have hfalse : l.all (fun i => i.opname.isSome) = false :=
          Bool.eq_false_iff.mpr hall
        rcases List.all_eq_false.mp hfalse with ⟨i, hi, hni⟩
        refine ⟨i, hi, ?_⟩
        cases hcase : i.opname with
        | none => rfl
        | some s =>
          rw [hcase] at hni
          exact absurd rfl hni
      rcases hex with ⟨i, hi, hni⟩
      have hmem : i ∈ sortInstructions l := (pySorted_perm _ _ _).mem_iff.mpr hi
      have hgen : generate_instruction i false = none := by
        rw [generate_instruction, hni]
      rw [renderInstructionTable, optMapM_eq_none hmem hgen]
  · intro k
    exact pySorted_filter_key instSortKey hlaw l k

/-! ## Claim C8 -/

theorem keyed_entries_spec {category : Option String} {entries : List Enumerant}
    {keyed : List (Int × Enumerant)}
    (h : List.Forall₂
      (fun a b => (enumSortKey category a).map (fun k => (k, a)) = some b)
      entries keyed) :
    keyed.map (fun p => p.2) = entries
      ∧ ∀ p ∈ keyed, enumSortKey category p.2 = some p.1 := by
  induction h with
  | nil =>
    refine ⟨rfl, ?_⟩
    intro p hp
    cases hp
  | cons h1 h2 ih =>
    rename_i a b l1 l2
    have hb : ∃ k, enumSortKey category a = some k ∧ b = (k, a) := by
      cases hka : enumSortKey category a with
      | none =>
        rw [hka] at h1
        exact Option.noConfusion h1
      | some k =>
        rw [hka] at h1
        injection h1 with h1
        exact ⟨k, rfl, h1.symm⟩
    rcases hb with ⟨k, hk, hbeq⟩
    subst hbeq
    refine ⟨?_, ?_⟩
    · rw [List.map_cons, ih.1]
    · intro p hp
      rcases List.mem_cons.mp hp with h3 | h3
      · rw [h3]
        exact hk
      · exact ih.2 p h3

/-- C8: within a tabulated operand kind the rendered enumerant order is the
stable sort on the numeric key — the raw decimal value for value-enumerations
and the integer parsed from the hexadecimal string for bit-enumerations: the
sorted list is a permutation of the declared list, pairwise ascending in the
key, and, for each key, keeps the declared subsequence of entries carrying
that key (ties broken by original declaration order, so the first-declared
alias of a shared value stays first and is the canonical name). -/
theorem claim8_enumerant_sort (category : Option String)
    (entries sortedE : List Enumerant)
    (h : sortEnumerants category entries = some sortedE) :
    sortedE.Perm entries
    ∧ sortedE.Pairwise (fun a b => ∀ ka kb, enumSortKey category a = some ka →
        enumSortKey category b = some kb → ka ≤ kb)
    ∧ ∀ k : Int, sortedE.filter (fun e => enumSortKey category e = some k)
        = entries.filter (fun e => enumSortKey category e = some k) := by
  rw [sortEnumerants] at h
  rcases hm : optMapM (fun e => (enumSortKey category e).map (fun k => (k, e))) entries
      with _ | keyed
  · rw [hm] at h
    exact Option.noConfusion h
  · rw [hm] at h
    injection h with h
    rcases keyed_entries_spec (optMapM_forall2 hm) with ⟨hsnd, hkey⟩
    have hkey2 : ∀ p ∈ pySorted (fun p => p.1) cmpInt keyed,
        enumSortKey category p.2 = some p.1 := by
      intro p hp
      exact hkey p ((pySorted_perm _ _ _).mem_iff.mp hp)
    refine ⟨?_, ?_, ?_⟩
    · rw [← h]
      have hperm := (pySorted_perm (fun p : Int × Enumerant => p.1) cmpInt keyed).map
        (fun p => p.2)
      rw [hsnd] at hperm
      exact hperm
    · rw [← h, List.pairwise_map]
      refine List.Pairwise.imp_of_mem ?_
        (pySorted_pairwise (fun p : Int × Enumerant => p.1) lawfulCmpInt keyed)
      intro p q hp hq hle ka kb hka hkb
      rw [hkey2 p hp] at hka
      rw [hkey2 q hq] at hkb
      injection hka with hka
      injection hkb with hkb
      rw [← hka, ← hkb]
      exact (leOfCmp_cmpInt_iff p.1 q.1).mp hle
    · intro k
      rw [← h]
      rw [List.filter_map]
      have hc1 : (pySorted (fun p => p.1) cmpInt keyed).filter
            ((fun e => decide (enumSortKey category e = some k)) ∘ (fun p => p.2))
          = (pySorted (fun p => p.1) cmpInt keyed).filter (fun p => p.1 = k) := by
        apply List.filter_congr
        intro p hp
        simp only [Function.comp]
        rw [decide_eq_decide]
        rw [hkey2 p hp]
        simp
      have hc2 : keyed.filter (fun p => p.1 = k)
          = keyed.filter ((fun e => decide (enumSortKey category e = some k))
              ∘ (fun p => p.2)) := by
        apply List.filter_congr
        intro p hp
        simp only [Function.comp]
        rw [decide_eq_decide]
        rw [hkey p hp]
        simp
      rw [hc1, pySorted_filter_key (fun p : Int × Enumerant => p.1) lawfulCmpInt keyed k,
        hc2, ← List.filter_map, hsnd]

/-- A `ValueEnum` enumerant carrying only a name, a decimal value and an
extension list (the fields the merge and sort claims exercise). -/
def mkValueEnumerant (name : String) (v : Int) (exts : List String) : Enumerant :=
  { enumerant := some name
    value := some (JVal.num v)
    capabilities := []
    extensions := exts
    parameters := []
    version := none
    lastVersion := none }

def c8e1 : Enumerant := mkValueEnumerant ("A") 2 []
def c8e2 : Enumerant := mkValueEnumerant ("B") 1 []
def c8e3 : Enumerant := mkValueEnumerant ("C") 1 []

/-- C8 witness: values `2, 1, 1` sort to `1, 1, 2` with the two aliases of
value `1` keeping their declaration order. -/
theorem claim8_witness :
    sortEnumerants (some ("ValueEnum")) [c8e1, c8e2, c8e3] = some [c8e2, c8e3, c8e1]
    ∧ ([c8e2, c8e3, c8e1] : List Enumerant).Perm [c8e1, c8e2, c8e3]
    ∧ ([c8e2, c8e3, c8e1] : List Enumerant).filter
        (fun e => enumSortKey (some ("ValueEnum")) e = some 1)
      = ([c8e1, c8e2, c8e3] : List Enumerant).filter
        (fun e => enumSortKey (some ("ValueEnum")) e = some 1) :=
  ⟨rfl,
   (claim8_enumerant_sort (some ("ValueEnum")) [c8e1, c8e2, c8e3] [c8e2, c8e3, c8e1]
     rfl).1,
   (claim8_enumerant_sort (some ("ValueEnum")) [c8e1, c8e2, c8e3] [c8e2, c8e3, c8e1]
     rfl).2.2 1⟩

/-! ## Claim C1 -/

theorem mem_groupExtensions_self {operand_kinds : List OperandKind}
    {k : OperandKind} (hk : k ∈ operand_kinds) {e : Enumerant}
    (he : e ∈ k.enumerants) {s : String} (hs : s ∈ e.extensions) :
    s ∈ groupExtensions operand_kinds (enumGroupKey (k.kind.getD ("")) e) := by
  rw [groupExtensions, List.mem_flatten]
  refine ⟨e.extensions, ?_, hs⟩
  rw [List.mem_flatten]
  refine ⟨(k.enumerants.filter
    (fun e2 => enumGroupKey (k.kind.getD ("")) e2
      = enumGroupKey (k.kind.getD ("")) e)).map (fun e2 => e2.extensions), ?_, ?_⟩
  · exact List.mem_map.mpr ⟨k, hk, rfl⟩
  · exact List.mem_map.mpr ⟨e, List.mem_filter.mpr ⟨he, by simp⟩, rfl⟩

theorem sorted_nodup_mem_eq {l1 l2 : List String}
    (h1s : l1.Pairwise (fun a b => leOfCmp cmpStr a b = true)) (h1n : l1.Nodup)
    (h2s : l2.Pairwise (fun a b => leOfCmp cmpStr a b = true)) (h2n : l2.Nodup)
    (hm : ∀ s, s ∈ l1 ↔ s ∈ l2) : l1 = l2 := by
  haveI : IsAntisymm String (fun a b => leOfCmp cmpStr a b = true) :=
    ⟨fun a b hab hba => leOfCmp_antisymm lawfulCmpStr hab hba⟩
  exact List.eq_of_perm_of_sorted ((List.perm_ext_iff_of_nodup h1n h2n).mpr hm) h1s h2s

/-- C1 counterexample: two enumerants of one kind sharing value `7`, the
first declaring extension `Y` and the second `X`: the declaration-order union
would be `[Y, X]`, but `precondition_operand_kinds` writes the
alphabetically sorted `[X, Y]` into both. -/
theorem claim1_declaration_order_counterexample :
    (precondition_operand_kinds
        [{ kind := some ("K")
           category := some ("ValueEnum")
           enumerants := [mkValueEnumerant ("A") 7 [("Y")],
             mkValueEnumerant ("B") 7 [("X")]] }]).map
      (fun ks => ks.map (fun k => k.enumerants.map (fun e => e.extensions)))
        = some [[[("X"), ("Y")], [("X"), ("Y")]]]
    ∧ ([("X"), ("Y")] : List String) ≠ [("Y"), ("X")] :=
  ⟨rfl, by decide⟩

/-- C1 (amended: the merged list is the deduplicated union sorted
alphabetically, not in declaration order): after
`precondition_operand_kinds`, every enumerant's extension list is
duplicate-free, sorted by the string order, and contains exactly the
extensions declared by the members of its `(kind name, value)` group; in
particular all members of one group carry identical lists. -/
theorem claim1_alias_extension_merge (operand_kinds result : List OperandKind)
    (h : precondition_operand_kinds operand_kinds = some result) :
    (∀ k2 ∈ result, ∀ e2 ∈ k2.enumerants,
        e2.extensions.Pairwise (fun a b => leOfCmp cmpStr a b = true)
          ∧ e2.extensions.Nodup
          ∧ (∀ s, s ∈ e2.extensions ↔
              s ∈ groupExtensions operand_kinds (enumGroupKey (k2.kind.getD ("")) e2)))
    ∧ (∀ k2 ∈ result, ∀ k2' ∈ result, ∀ e2 ∈ k2.enumerants, ∀ e2' ∈ k2'.enumerants,
        enumGroupKey (k2.kind.getD ("")) e2 = enumGroupKey (k2'.kind.getD ("")) e2' →
        e2.extensions = e2'.extensions) := by
  rw [precondition_operand_kinds] at h
  by_cases hall : operand_kinds.all (fun k => k.enumerants.isEmpty || k.kind.isSome)
  · rw [if_pos hall] at h
    injection h with h
    have hmain : ∀ k2 ∈ result, ∀ e2 ∈ k2.enumerants,
        e2.extensions.Pairwise (fun a b => leOfCmp cmpStr a b = true)
          ∧ e2.extensions.Nodup
          ∧ (∀ s, s ∈ e2.extensions ↔
              s ∈ groupExtensions operand_kinds (enumGroupKey (k2.kind.getD ("")) e2)) := by
      intro k2 hk2 e2 he2
      rw [← h] at hk2
      rcases List.mem_map.mp hk2 with ⟨k, hk, hkeq⟩
      rw [← hkeq] at he2
      rcases List.mem_map.mp he2 with ⟨e, he, heeq⟩
      have hkind : k2.kind = k.kind := by
        rw [← hkeq]
      have hvalue : e2.value = e.value := by
        rw [← heeq]
        by_cases hu : (sortedDedupStrings (groupExtensions operand_kinds
            (enumGroupKey (k.kind.getD ("")) e))).isEmpty <;> simp [hu]
      have hkeysame : enumGroupKey (k2.kind.getD ("")) e2
          = enumGroupKey (k.kind.getD ("")) e := by
        rw [enumGroupKey, enumGroupKey, hkind, hvalue]
      rw [hkeysame]
      by_cases hu : (sortedDedupStrings (groupExtensions operand_kinds
          (enumGroupKey (k.kind.getD ("")) e))).isEmpty
      · have hunil : sortedDedupStrings (groupExtensions operand_kinds
            (enumGroupKey (k.kind.getD ("")) e)) = [] := by
          revert hu
          cases sortedDedupStrings (groupExtensions operand_kinds
            (enumGroupKey (k.kind.getD ("")) e)) <;> simp
        have hgnil : groupExtensions operand_kinds
            (enumGroupKey (k.kind.getD ("")) e) = [] :=
          sortedDedupStrings_eq_nil hunil
        have hext : e2.extensions = e.extensions := by
          rw [← heeq]
          simp [hu]
        have henil : e.extensions = [] := by
          rcases hee : e.extensions with _ | ⟨x, xs⟩
          · rfl
          · have : x ∈ groupExtensions operand_kinds
                (enumGroupKey (k.kind.getD ("")) e) :=
              mem_groupExtensions_self hk he (by rw [hee]; exact List.mem_cons_self x xs)
            rw [hgnil] at this
            cases this
        rw [hext, henil, hgnil]
        refine ⟨List.Pairwise.nil, List.nodup_nil, ?_⟩
        intro s
        constructor
        · intro hc
          cases hc
        · intro hc
          cases hc
      · have hext : e2.extensions = sortedDedupStrings (groupExtensions operand_kinds
            (enumGroupKey (k.kind.getD ("")) e)) := by
          rw [← heeq]
          simp [hu]
        rw [hext]
        exact ⟨sortedDedupStrings_pairwise _, sortedDedupStrings_nodup _,
          fun s => sortedDedupStrings_mem _ s⟩
    refine ⟨hmain, ?_⟩
    intro k2 hk2 k2' hk2' e2 he2 e2' he2' hkk
    rcases hmain k2 hk2 e2 he2 with ⟨h1s, h1n, h1m⟩
    rcases hmain k2' hk2' e2' he2' with ⟨h2s, h2n, h2m⟩
    refine sorted_nodup_mem_eq h1s h1n h2s h2n ?_
    intro s
    rw [h1m s, h2m s, hkk]
  · rw [if_neg hall] at h
    exact Option.noConfusion h

def c1kind : OperandKind :=
  { kind := some ("K")
    category := some ("ValueEnum")
    enumerants := [mkValueEnumerant ("A") 7 [("Y")], mkValueEnumerant ("B") 7 [("X")]] }

def c1kindMerged : OperandKind :=
  { kind := some ("K")
    category := some ("ValueEnum")
    enumerants := [mkValueEnumerant ("A") 7 [("X"), ("Y")],
      mkValueEnumerant ("B") 7 [("X"), ("Y")]] }

/-- C1 witness: the two-member alias group at the concrete kind above. -/
theorem claim1_witness :
    precondition_operand_kinds [c1kind] = some [c1kindMerged]
    ∧ (mkValueEnumerant ("A") 7 [("X"), ("Y")]).extensions.Nodup
    ∧ ((("Y")) ∈ (mkValueEnumerant ("A") 7 [("X"), ("Y")]).extensions ↔
        (("Y")) ∈ groupExtensions [c1kind]
          (enumGroupKey (c1kindMerged.kind.getD (""))
            (mkValueEnumerant ("A") 7 [("X"), ("Y")])))
    ∧ (mkValueEnumerant ("A") 7 [("X"), ("Y")]).extensions
        = (mkValueEnumerant ("B") 7 [("X"), ("Y")]).extensions := by
  have h := claim1_alias_extension_merge [c1kind] [c1kindMerged] rfl
  have hm1 : c1kindMerged ∈ [c1kindMerged] := List.mem_singleton.mpr rfl
  have he1 : mkValueEnumerant ("A") 7 [("X"), ("Y")] ∈ c1kindMerged.enumerants :=
    List.mem_cons_self _ _
  have he2 : mkValueEnumerant ("B") 7 [("X"), ("Y")] ∈ c1kindMerged.enumerants :=
    List.mem_cons_of_mem _ (List.mem_cons_self _ _)
  have h1 := h.1 c1kindMerged hm1 _ he1
  exact ⟨rfl, h1.2.1, h1.2.2 (("Y")),
    h.2 c1kindMerged hm1 c1kindMerged hm1 _ he1 _ he2 rfl⟩

/-! ## Claim C9 -/

theorem rowBlock (ts : List EnumKindResult) (q : String) :
    (((ts.map (fun r => r.kind)).zip (List.replicate ts.length q)).map
      (fun p => convert_operand_kind p.1 p.2)).zip (ts.map (fun r => r.name))
    = ts.map (fun r => (convert_operand_kind r.kind q, r.name)) := by
  induction ts with
  | nil => rfl
  | cons r rs ih =>
    simp only [List.map_cons, List.length_cons, List.replicate_succ, List.zip_cons_cons]
    rw [ih]

theorem rowData_split (rs ts : List EnumKindResult) (h3 : ts.length = 3) :
    (((((rs ++ ts).map (fun r => r.kind)).zip
        (List.replicate ((rs ++ ts).length - 3) ("")
          ++ List.replicate 3 ("?"))).map
      (fun p => convert_operand_kind p.1 p.2)).zip ((rs ++ ts).map (fun r => r.name)))
    = rs.map (fun r => (convert_operand_kind r.kind (""), r.name))
      ++ ts.map (fun r => (convert_operand_kind r.kind ("?"), r.name)) := by
  induction rs with
  | nil =>
    simp only [List.nil_append, List.map_nil]
    have hlen : ts.length - 3 = 0 := by omega
    rw [hlen, List.replicate_zero, List.nil_append, ← h3, rowBlock]
  | cons r rs ih =>
    have hlen : ((r :: rs) ++ ts).length - 3 = (rs ++ ts).length - 3 + 1 := by
      simp only [List.cons_append, List.length_cons, List.length_append, h3]
      omega
    rw [hlen, List.replicate_succ, List.cons_append]
    simp only [List.cons_append, List.map_cons, List.zip_cons_cons]
    rw [ih]

/-- The single tabulated kind of the C9 counterexample. -/
def c9cexKind : OperandKind :=
  { kind := some ("ImageOperands")
    category := some ("ValueEnum")
    enumerants := [mkValueEnumerant ("None") 0 []] }

/-- What `generate_enum_operand_kind` produces for it. -/
def c9cexResult : EnumKindResult :=
  { kind := ("ImageOperands")
    name := ("pygen_variable_ImageOperandsEntries")
    entries := ("static const spv_operand_desc_t pygen_variable_ImageOperandsEntries[] = \x7b\n  \x7b\"None\", 0, 0, nullptr, 0, nullptr, \x7b\x7d, SPV_SPIRV_VERSION_WORD(1, 0), 0xffffffffu\x7d\n\x7d;")
    syntheticExts := [[]] }

/-- C9 counterexample: a grammar whose tabulated enum kinds contain
`ImageOperands` but not `AccessQualifier` or `MemoryAccess`: the hardcoded
"mark the last three as optional" bookkeeping then marks both rows of
`ImageOperands` with the Optional identifier (no mandatory-identifier row at
all) and drops the underlying array from the emitted entries instead of
emitting it once. -/
theorem claim9_single_kind_counterexample :
    operandTableRows [c9cexKind]
      = some [(("SPV_OPERAND_TYPE_OPTIONAL_IMAGE"), ("pygen_variable_ImageOperandsEntries")),
              (("SPV_OPERAND_TYPE_OPTIONAL_IMAGE"), ("pygen_variable_ImageOperandsEntries"))]
    ∧ ((("SPV_OPERAND_TYPE_IMAGE"), ("pygen_variable_ImageOperandsEntries"))
        ∉ [(("SPV_OPERAND_TYPE_OPTIONAL_IMAGE"), ("pygen_variable_ImageOperandsEntries")),
           (("SPV_OPERAND_TYPE_OPTIONAL_IMAGE"), ("pygen_variable_ImageOperandsEntries"))])
    ∧ optMapM generate_enum_operand_kind (tabulatedEnums [c9cexKind]) = some [c9cexResult]
    ∧ keptEntryStrings [c9cexResult] = [] := by
  refine ⟨rfl, by decide, rfl, rfl⟩

/-- C9 (amended: the two-row optional duplication holds when all three
configured kinds are present — with fewer present the hardcoded
last-three bookkeeping misassigns the optional marker): when the duplicated
sublist has length three, the operand-kind table rows are exactly the
mandatory rows of all tabulated kinds followed by the Optional-variant rows
of the three configured kinds; every underlying array is emitted exactly
once (the duplicates are dropped); and each configured kind present
contributes one mandatory-identifier row and one distinct Optional-identifier
row, both referencing the same single array name (hence reporting the same
element count `ARRAY_SIZE(name)`). -/
theorem claim9_optional_duplication (results : List EnumKindResult)
    (h3 : (threeOptionalOf results).length = 3) :
    operandTableRowData results
        = results.map (fun r => (convert_operand_kind r.kind (""), r.name))
          ++ (threeOptionalOf results).map
            (fun r => (convert_operand_kind r.kind ("?"), r.name))
    ∧ keptEntryStrings results = results.map (fun r => r.entries)
    ∧ ∀ t ∈ threeOptionalOf results,
        ((convert_operand_kind t.kind (""), t.name) ∈ operandTableRowData results
          ∧ (convert_operand_kind t.kind ("?"), t.name) ∈ operandTableRowData results
          ∧ convert_operand_kind t.kind ("") ≠ convert_operand_kind t.kind ("?")) := by
  have hrows : operandTableRowData results
      = results.map (fun r => (convert_operand_kind r.kind (""), r.name))
        ++ (threeOptionalOf results).map
          (fun r => (convert_operand_kind r.kind ("?"), r.name)) := by
    rw [operandTableRowData]
    exact rowData_split results (threeOptionalOf results) h3
  have hkept : keptEntryStrings results = results.map (fun r => r.entries) := by
    rw [keptEntryStrings]
    have hlen : (results ++ threeOptionalOf results).length - 3 = results.length := by
      simp only [List.length_append, h3]
      omega
    rw [hlen, List.map_append]
    have hlen2 : results.length = (results.map (fun r => r.entries)).length := by
      rw [List.length_map]
    rw [hlen2, List.take_left]
  refine ⟨hrows, hkept, ?_⟩
  intro t ht
  have htres : t ∈ results := List.mem_of_mem_filter ht
  refine ⟨?_, ?_, ?_⟩
  · rw [hrows]
    exact List.mem_append_left _ (List.mem_map.mpr ⟨t, htres, rfl⟩)
  · rw [hrows]
    exact List.mem_append_right _ (List.mem_map.mpr ⟨t, ht, rfl⟩)
  · have hcases := List.mem_filter.mp ht
    have hk : t.kind = ("ImageOperands") ∨ t.kind = ("AccessQualifier")
        ∨ t.kind = ("MemoryAccess") := by
      have := hcases.2
      simpa using this
    rcases hk with hk | hk | hk <;> rw [hk] <;> decide

def c9ImageOperands : EnumKindResult :=
  { kind := ("ImageOperands")
    name := ("N1")
    entries := ("E1")
    syntheticExts := [] }

def c9AccessQualifier : EnumKindResult :=
  { kind := ("AccessQualifier")
    name := ("N2")
    entries := ("E2")
    syntheticExts := [] }

def c9MemoryAccess : EnumKindResult :=
  { kind := ("MemoryAccess")
    name := ("N3")
    entries := ("E3")
    syntheticExts := [] }

/-- C9 witness: with all three configured kinds present, `ImageOperands`
gets a mandatory row and a distinct Optional row sharing one array name,
and every array is emitted exactly once. -/
theorem claim9_witness :
    (convert_operand_kind (("ImageOperands")) (""), ("N1"))
        ∈ operandTableRowData [c9ImageOperands, c9AccessQualifier, c9MemoryAccess]
    ∧ (convert_operand_kind (("ImageOperands")) ("?"), ("N1"))
        ∈ operandTableRowData [c9ImageOperands, c9AccessQualifier, c9MemoryAccess]
    ∧ convert_operand_kind (("ImageOperands")) ("")
        ≠ convert_operand_kind (("ImageOperands")) ("?")
    ∧ keptEntryStrings [c9ImageOperands, c9AccessQualifier, c9MemoryAccess]
        = [("E1"), ("E2"), ("E3")] := by
  have h := claim9_optional_duplication
    [c9ImageOperands, c9AccessQualifier, c9MemoryAccess] rfl
  have ht := h.2.2 c9ImageOperands (by decide)
  exact ⟨ht.1, ht.2.1, ht.2.2, h.2.1⟩

/-! ## Claims C7 and C2: failure ordering in `main` -/

theorem sortEnumerants_perm {category : Option String}
    {entries sortedE : List Enumerant}
    (h : sortEnumerants category entries = some sortedE) : sortedE.Perm entries := by
  rw [sortEnumerants] at h
  rcases hm : optMapM (fun e => (enumSortKey category e).map (fun k => (k, e))) entries
      with _ | keyed
  · rw [hm] at h
    exact Option.noConfusion h
  · rw [hm] at h
    injection h with h
    rcases keyed_entries_spec (optMapM_forall2 hm) with ⟨hsnd, _⟩
    rw [← h]
    have hperm := (pySorted_perm (fun p : Int × Enumerant => p.1) cmpInt keyed).map
      (fun p => p.2)
    rw [hsnd] at hperm
    exact hperm

theorem enumSortKey_value_none {category : Option String} {e : Enumerant}
    (hv : e.value = none) : enumSortKey category e = none := by
  rw [enumSortKey]
  by_cases hc : category = some ("ValueEnum") <;> simp [hc, hv]

theorem generate_enum_operand_kind_eq_none {k : OperandKind}
    (hbad : ∃ e ∈ k.enumerants, e.enumerant = none ∨ e.value = none) :
    generate_enum_operand_kind k = none := by
  rcases hbad with ⟨e, he, hbad⟩
  cases hkk : k.kind with
  | none => simp only [generate_enum_operand_kind, hkk]
  | some kindName =>
    cases hsort : sortEnumerants k.category k.enumerants with
    | none => simp only [generate_enum_operand_kind, hkk, hsort]
    | some sortedE =>
      rcases hbad with hname | hvalue
      · have hmem : e ∈ sortedE := (sortEnumerants_perm hsort).mem_iff.mpr he
        have hentry : generate_enum_operand_kind_entry e (aliasExtMap sortedE) = none := by
          rw [generate_enum_operand_kind_entry, hname]
        have hopt : optMapM
            (fun e2 => (generate_enum_operand_kind_entry e2 (aliasExtMap sortedE)).map
              (fun s => ("  ") ++ s)) sortedE = none :=
          @optMapM_eq_none Enumerant String
            (fun e2 => (generate_enum_operand_kind_entry e2 (aliasExtMap sortedE)).map
              (fun s => ("  ") ++ s)) sortedE e hmem (by simp [hentry])
        simp only [generate_enum_operand_kind, hkk, hsort, hopt]
      · exfalso
        have hnone : sortEnumerants k.category k.enumerants = none := by
          rw [sortEnumerants,
            optMapM_eq_none he (by rw [enumSortKey_value_none hvalue]; rfl)]
        rw [hnone] at hsort
        exact Option.noConfusion hsort

/-- C7: a supplementary extension name that also appears as a
grammar-declared extension makes `get_extension_list` fail its assertion,
and the whole run produces no output at all. -/
theorem claim7_supplementary_collision (core debuginfo cldebug : Grammar)
    (wantCore wantExtEnum wantMapping : Bool) (s : String)
    (insts : List Inst) (kinds : List OperandKind)
    (hs : s ∈ EXTENSIONS_FROM_SPIRV_REGISTRY_AND_NOT_FROM_GRAMMARS)
    (hm : mergedGrammars core debuginfo cldebug = some (insts, kinds))
    (hd : s ∈ declaredExtensions insts kinds) :
    get_extension_list insts kinds = none
    ∧ runMain core debuginfo cldebug wantCore wantExtEnum wantMapping = ([], false) := by
  have hall : EXTENSIONS_FROM_SPIRV_REGISTRY_AND_NOT_FROM_GRAMMARS.all
      (fun i => !((declaredExtensions insts kinds).contains i)) = false := by
    apply List.all_eq_false.mpr
    refine ⟨s, hs, ?_⟩
    simp [hd]
  have hext : get_extension_list insts kinds = none := by
    rw [get_extension_list]
    simp only [hall, Bool.false_eq_true, if_false]
  refine ⟨hext, ?_⟩
  rw [runMain_merge_some hm, mainRegistryStage_ext_none hext]

def emptyGrammar : Grammar := { instructions := [], operand_kinds := [] }

def c7inst : Inst :=
  { opname := some ("OpNop")
    opcode := 0
    capabilities := []
    extensions := [("SPV_AMD_gcn_shader")]
    operands := []
    version := none
    lastVersion := none }

def c7core : Grammar := { instructions := [c7inst], operand_kinds := [] }

/-- C7 witness: a core grammar declaring `SPV_AMD_gcn_shader` on an
instruction collides with the supplementary registry list; nothing is
written. -/
theorem claim7_witness :
    get_extension_list [c7inst] [] = none
    ∧ runMain c7core emptyGrammar emptyGrammar true true true = ([], false) :=
  claim7_supplementary_collision c7core emptyGrammar emptyGrammar true true true
    ("SPV_AMD_gcn_shader") [c7inst] []
    (List.mem_cons_self _ _) rfl (by decide)

def c2nop : Inst :=
  { opname := some ("OpNop")
    opcode := 0
    capabilities := []
    extensions := []
    operands := []
    version := none
    lastVersion := none }

def c2badKind : OperandKind :=
  { kind := some ("FooEnum")
    category := some ("ValueEnum")
    enumerants := [{ enumerant := none
                     value := some (JVal.num 0)
                     capabilities := []
                     extensions := []
                     parameters := []
                     version := none
                     lastVersion := none }] }

def c2core : Grammar := { instructions := [c2nop], operand_kinds := [c2badKind] }

/-- C2 counterexample: a well-formed core instruction list together with an
operand-kind enumerant missing its name: generation aborts, but the core
instruction table has already been written — the abort does not leave "no
output file written". -/
theorem claim2_partial_write_counterexample :
    (runMain c2core emptyGrammar emptyGrammar true false false).2 = false
    ∧ ((runMain c2core emptyGrammar emptyGrammar true false false).1.map
        (fun p => p.1)) = [("core_insts_output")] :=
  ⟨rfl, rfl⟩

/-- C2 (amended: a missing required field always aborts the run before the
artifact that needs it is written, but artifacts written earlier in the same
run remain written): a missing instruction name aborts with nothing written;
a missing operand-kind name (on a kind that has enumerants) aborts with
nothing written; a missing enumerant name or value makes the operand-kind
table construction fail; and when the operand-kind table fails after the core
instruction table succeeded, the run stops having written exactly the core
instruction table — the failing artifact itself is never partially
written. -/
theorem claim2_malformed_grammar_abort :
    (∀ (core debuginfo cldebug : Grammar) (we wm : Bool),
        (∃ i ∈ core.instructions, i.opname = none) →
        runMain core debuginfo cldebug true we wm = ([], false))
    ∧ (∀ (core debuginfo cldebug : Grammar) (wc we wm : Bool)
          (insts : List Inst) (kinds : List OperandKind),
        mergedGrammars core debuginfo cldebug = some (insts, kinds) →
        (∃ k ∈ kinds, k.kind = none ∧ k.enumerants ≠ []) →
        runMain core debuginfo cldebug wc we wm = ([], false))
    ∧ (∀ kinds : List OperandKind,
        (∃ k ∈ tabulatedEnums kinds, ∃ e ∈ k.enumerants,
          e.enumerant = none ∨ e.value = none) →
        generate_operand_kind_table kinds = none)
    ∧ (∀ (core debuginfo cldebug : Grammar) (we wm : Bool)
          (insts : List Inst) (kinds : List OperandKind)
          (exts : List String) (kinds2 : List OperandKind) (coreTable : String),
        mergedGrammars core debuginfo cldebug = some (insts, kinds) →
        get_extension_list insts kinds = some exts →
        precondition_operand_kinds kinds = some kinds2 →
        generate_instruction_table core.instructions = some coreTable →
        generate_operand_kind_table kinds2 = none →
        runMain core debuginfo cldebug true we wm
          = ([(("core_insts_output"), coreTable)], false)) := by
  refine ⟨?_, ?_, ?_, ?_⟩
  · intro core debuginfo cldebug we wm hbad
    rcases hbad with ⟨i, hi, hni⟩
    have htab : generate_instruction_table core.instructions = none := by
      have hfalse : core.instructions.all (fun i => i.opname.isSome) = false := by
        apply List.all_eq_false.mpr
        refine ⟨i, hi, ?_⟩
        rw [hni]
        simp
      rw [generate_instruction_table]
      simp only [hfalse, Bool.false_eq_true, if_false]
    cases hm : mergedGrammars core debuginfo cldebug with
    | none => exact runMain_merge_none hm true we wm
    | some p =>
      obtain ⟨insts, kinds⟩ := p
      rw [runMain_merge_some hm]
      cases hext : get_extension_list insts kinds with
      | none => exact mainRegistryStage_ext_none hext true we wm
      | some exts =>
        cases hpre : precondition_operand_kinds kinds with
        | none => exact mainRegistryStage_pre_none hext hpre true we wm
        | some kinds2 =>
          rw [mainRegistryStage_some hext hpre]
          exact mainWriteStage_inst_none htab we wm
  · intro core debuginfo cldebug wc we wm insts kinds hm hbad
    rcases hbad with ⟨k, hk, hkn, hke⟩
    have hpre : precondition_operand_kinds kinds = none := by
      have hfalse : kinds.all (fun k => k.enumerants.isEmpty || k.kind.isSome) = false := by
        apply List.all_eq_false.mpr
        refine ⟨k, hk, ?_⟩
        rw [hkn, isEmpty_false_of_ne_nil hke]
        simp
      rw [precondition_operand_kinds]
      simp only [hfalse, Bool.false_eq_true, if_false]
    rw [runMain_merge_some hm]
    cases hext : get_extension_list insts kinds with
    | none => exact mainRegistryStage_ext_none hext wc we wm
    | some exts => exact mainRegistryStage_pre_none hext hpre wc we wm
  · intro kinds hbad
    rcases hbad with ⟨k, hk, hbad⟩
    rw [generate_operand_kind_table,
      optMapM_eq_none hk (generate_enum_operand_kind_eq_none hbad)]
  · intro core debuginfo cldebug we wm insts kinds exts kinds2 coreTable
      hm hext hpre hinst hkind
    rw [runMain_merge_some hm, mainRegistryStage_some hext hpre]
    exact mainWriteStage_kind_none hinst hkind we wm

/-- C2 witness: the abort cases at concrete inputs — a nameless instruction
writes nothing, and a tabulated kind whose enumerant lacks a name fails the
operand-kind table. -/
theorem claim2_witness :
    runMain { instructions := [{ opname := none
                                 opcode := 0
                                 capabilities := []
                                 extensions := []
                                 operands := []
                                 version := none
                                 lastVersion := none }], operand_kinds := [] }
        emptyGrammar emptyGrammar true false false = ([], false)
    ∧ generate_operand_kind_table [c2badKind] = none := by
  refine ⟨?_, ?_⟩
  · exact claim2_malformed_grammar_abort.1 _ emptyGrammar emptyGrammar false false
      ⟨_, List.mem_cons_self _ _, rfl⟩
  · exact claim2_malformed_grammar_abort.2.2.1 [c2badKind]
      ⟨c2badKind, by decide, _, List.mem_cons_self _ _, Or.inl rfl⟩
